import Mathlib

/-!
Verification of the Sleuth Kit (ajnelson fork) FAT/XTAF and Windows Registry
file-system parsers, `src/tsk3/fs/fatfs.c` and `src/tsk3/fs/regfs.c`, against
their natural-language specification.

The C code is shallowly embedded: machine integers become `Nat` (with explicit
masks where overflow matters and `Int` for the one signed decode), the image
reader becomes a pure `Disk` value, the in-place mutation of the FAT cache
becomes explicit state passing, and fallible operations return `Except`/pairs
carrying the C return code.
-/

namespace Tsk

/-! ### Image reader (C1 of the spec)

`tsk_fs_read(fs, off, buf, len)` returns the count actually read; every caller
in the two source files treats `cnt != len` as a failure.  A `Disk` is the
byte stream of one opened file-system region: reads succeed exactly when they
lie inside `size` bytes.  Buffers in C are `uint8_t` arrays, so each byte that
enters through a read is reduced mod 256. -/

structure Disk where
  size : Nat
  byteAt : Nat → Nat

/-- A byte as stored into a C `uint8_t` buffer. -/
def Disk.read8 (d : Disk) (off : Nat) : Nat := d.byteAt off % 256

/-- `tsk_fs_read`: read `len` bytes at byte offset `off`; `none` models a short
read (`cnt != len`). -/
def tsk_fs_read (d : Disk) (off len : Nat) : Option (Nat → Nat) :=
  if off + len ≤ d.size then some (fun j => d.read8 (off + j)) else none

/-! ### Endian helpers (tsk_getu16 / tsk_getu32 / tsk_gets32)

The C macros bit-or together `uint8_t` operands shifted to disjoint byte
positions; on byte values (< 256, guaranteed by the `uint8_t` type of every
buffer) the bit-or is plain addition, which is how we write it. -/

inductive Endian where
  | little
  | big
deriving DecidableEq

def tsk_getu16 (en : Endian) (b : Nat → Nat) : Nat :=
  match en with
  | .little => b 0 + (b 1 <<< 8)
  | .big => b 1 + (b 0 <<< 8)

def tsk_getu32 (en : Endian) (b : Nat → Nat) : Nat :=
  match en with
  | .little => b 0 + (b 1 <<< 8) + (b 2 <<< 16) + (b 3 <<< 24)
  | .big => b 3 + (b 2 <<< 8) + (b 1 <<< 16) + (b 0 <<< 24)

/-- `tsk_gets32`: the same 32 bits reinterpreted as a signed two's-complement
`int32_t`. -/
def tsk_gets32 (en : Endian) (b : Nat → Nat) : Int :=
  let u := tsk_getu32 en b
  if u < 2 ^ 31 then (u : Int) else (u : Int) - 2 ^ 32

/-! ### Error kinds and walk callback verdicts (§7 of the spec) -/

inductive TskErr where
  | arg
  | magic
  | read
  | walkRng
  | inodeCor
  | blkNum
  | unset
deriving DecidableEq

inductive WalkRet where
  | cont
  | stop
  | error
deriving DecidableEq

/-- Modelled from the spec: the `TSK_FS_BLOCK_FLAG` bit constants live in
`tsk_fs.h`, which is not part of the two source files; the spec only demands
distinct bits for ALLOC/UNALLOC/CONT/META plus a RAW bit. -/
def FLAG_ALLOC : Nat := 0x1
def FLAG_UNALLOC : Nat := 0x2
def FLAG_CONT : Nat := 0x4
def FLAG_META : Nat := 0x8
def FLAG_RAW : Nat := 0x20

/-- The four `TSK_FS_BLOCK_WALK_FLAG` filter halves of a block walk. -/
structure WalkFlags where
  alloc : Bool
  unalloc : Bool
  meta : Bool
  cont : Bool
deriving DecidableEq

/-- The walk-flag defaulting shared by `fatfs_block_walk` (fatfs.c:441-451) and
`reg_block_walk` (regfs.c:409-419): an absent ALLOC/UNALLOC half turns both
on, likewise for META/CONT. -/
def walkDefault (f : WalkFlags) : WalkFlags :=
  let f1 := if ¬f.alloc ∧ ¬f.unalloc then { f with alloc := true, unalloc := true } else f
  if ¬f1.meta ∧ ¬f1.cont then { f1 with meta := true, cont := true } else f1

/-- Whether a block whose `block_getflags` classification is `g` passes the
walk filter `fl` (each bit present in `g` must be enabled in `fl`). -/
def flagSat (fl : WalkFlags) (g : Nat) : Bool :=
  (g &&& FLAG_META == 0 || fl.meta) && (g &&& FLAG_CONT == 0 || fl.cont) &&
  (g &&& FLAG_ALLOC == 0 || fl.alloc) && (g &&& FLAG_UNALLOC == 0 || fl.unalloc)

/-- A block delivered to a walk callback: address, flags, block data. -/
abbrev WEntry := Nat × Nat × List Nat

/-- A walk callback (`TSK_FS_BLOCK_WALK_CB`): sees address, flags and data. -/
abbrev WalkCb := Nat → Nat → List Nat → WalkRet

/-! ## Registry hive parser (`regfs.c`) -/

/-- Modelled from the spec: `HBIN_SIZE` is declared in `tsk_regfs.h` (not in
the sources); §3 fixes the HBIN page size at 4096. -/
def HBIN_SIZE : Nat := 4096

/-- Modelled from the spec: `FIRST_HBIN_OFFSET` is declared in `tsk_regfs.h`;
per §3 the first inode is the first HBIN offset, i.e. the 4096-byte REGF
header page is followed immediately by the first HBIN. -/
def FIRST_HBIN_OFFSET : Nat := 4096

inductive RegRecordType where
  | vk
  | nk
  | lf
  | lh
  | li
  | ri
  | sk
  | db
  | unknown
deriving DecidableEq

/-- `REGFS_CELL` (regfs.c): the decoded cell header. -/
structure REGFS_CELL where
  inum : Nat
  is_allocated : Bool
  length : Nat
  ctype : RegRecordType
deriving DecidableEq

/-- The fields of `TSK_FS_INFO` that the Registry functions consult. -/
structure RegFs where
  endian : Endian
  first_block : Nat
  last_block : Nat
  first_inum : Nat
  last_inum : Nat
  block_size : Nat
deriving DecidableEq

/-- The `TSK_FS_INFO` field assignments of `regfs_open` (regfs.c:1158-1181),
given the already-decoded `last_hbin_offset` header field `H` (the REGF struct
layout lives in `tsk_regfs.h`, outside the sources). -/
def regfs_open_fields (H : Nat) : RegFs :=
  { endian := .little
    first_inum := FIRST_HBIN_OFFSET
    last_inum := H + HBIN_SIZE
    block_size := HBIN_SIZE
    first_block := 0
    last_block := H }

/-- The tag-byte switch of `reg_load_cell` (regfs.c:118-146). -/
def regTypeOf (t : Nat) : RegRecordType :=
  if t = 0x6b76 then .vk
  else if t = 0x6b6e then .nk
  else if t = 0x666c then .lf
  else if t = 0x686c then .lh
  else if t = 0x696c then .li
  else if t = 0x6972 then .ri
  else if t = 0x6b73 then .sk
  else if t = 0x6264 then .db
  else .unknown

/-- `reg_load_cell` (regfs.c:76-149).  The signed length is decoded exactly as
the C does it: `len & 1 << 31` picks the allocated branch, whose length is
`-1 * tsk_gets32(...)` computed in `int` and stored into a `uint32_t` field
(hence the reduction mod 2^32). -/
def reg_load_cell (fs : RegFs) (d : Disk) (inum : Nat) : Except TskErr REGFS_CELL :=
  if inum < fs.first_block ∨ inum > fs.last_block then .error .blkNum
  else
    match tsk_fs_read d inum 6 with
    | none => .error .read
    | some buf =>
      let len := tsk_getu32 fs.endian buf
      -- the if/else of regfs.c:101-107 sets the (is_allocated, length) pair
      let al : Bool × Nat :=
        if len &&& (1 <<< 31) ≠ 0 then
          (true, ((-1 * tsk_gets32 fs.endian buf) % (2 ^ 32 : Int)).toNat)
        else (false, len)
      if al.2 ≥ HBIN_SIZE then .error .inodeCor
      else .ok { inum := inum, is_allocated := al.1, length := al.2,
                 ctype := regTypeOf (tsk_getu16 fs.endian (fun j => buf (4 + j))) }

/-- `tsk_fs_read_block`: read `len` bytes at block address `blk`. -/
def tsk_fs_read_block (fs_block_size : Nat) (d : Disk) (blk len : Nat) : Option (Nat → Nat) :=
  tsk_fs_read d (blk * fs_block_size) len

/-- The body of `reg_block_walk`'s `while (blknum < a_end_blk)` loop
(regfs.c:427-466), phrased as recursion on the exact remaining block count
`e - blknum` (`count`).  `tsk_fs_block_set` cannot fail in this pure setting,
so its error arm is not represented. -/
def regWalkLoop (fs : RegFs) (d : Disk) (cb : WalkCb) : Nat → Nat → Nat × List WEntry
  | 0, _ => (0, [])
  | count + 1, blknum =>
    match tsk_fs_read_block fs.block_size d blknum HBIN_SIZE with
    | none => (1, [])
    | some buf =>
      let data := (List.range HBIN_SIZE).map buf
      let fl := FLAG_ALLOC ||| FLAG_META ||| FLAG_CONT ||| FLAG_RAW
      match cb blknum fl data with
      | .stop => (0, [(blknum, fl, data)])
      | .error => (1, [(blknum, fl, data)])
      | .cont =>
        let rest := regWalkLoop fs d cb count (blknum + 1)
        (rest.1, (blknum, fl, data) :: rest.2)

/-- `reg_block_walk` (regfs.c:375-470): returns the C return code together
with the sequence of blocks delivered to the callback. -/
def reg_block_walk (fs : RegFs) (d : Disk) (s e : Nat) (aflags : WalkFlags)
    (cb : WalkCb) : Nat × List WEntry :=
  if s < fs.first_block ∨ s > fs.last_block then (1, [])
  else if e < fs.first_block ∨ e > fs.last_block then (1, [])
  else
    -- the defaulted flags are computed (regfs.c:409-419) but never consulted:
    -- every HBIN is delivered with the fixed ALLOC|META|CONT|RAW flags
    let _ := walkDefault aflags
    regWalkLoop fs d cb (e - s) s

/-- `reg_block_getflags` (regfs.c:476-482). -/
def reg_block_getflags (_fs : RegFs) (_addr : Nat) : Nat :=
  FLAG_ALLOC ||| FLAG_META ||| FLAG_CONT

end Tsk

namespace Tsk

/-! ### Registry lemmas -/

/-- Every byte of a `Disk` fits in a `uint8_t`. -/
lemma read8_lt (d : Disk) (x : Nat) : d.read8 x < 256 := Nat.mod_lt _ (by norm_num)

/-- A 32-bit little-endian decode of disk bytes is below `2^32`. -/
lemma tsk_getu32_lt (d : Disk) (off : Nat) :
    tsk_getu32 .little (fun j => d.read8 (off + j)) < 2 ^ 32 := by
  have h0 := read8_lt d off
  have h0' := read8_lt d (off + 0)
  have h1 := read8_lt d (off + 1)
  have h2 := read8_lt d (off + 2)
  have h3 := read8_lt d (off + 3)
  simp only [tsk_getu32, Nat.shiftLeft_eq]
  norm_num
  omega

/-- `n &&& (1 <<< 31)` is nonzero exactly when bit 31 is set, i.e. (for
`n < 2^32`) when `2^31 ≤ n`. -/
lemma and_bit31_ne_zero (n : Nat) (hn : n < 2 ^ 32) :
    n &&& (1 <<< 31) ≠ 0 ↔ 2 ^ 31 ≤ n := by
  have hshift : (1 : Nat) <<< 31 = 2 ^ 31 := by rw [Nat.shiftLeft_eq]; norm_num
  rw [hshift, Nat.and_two_pow, Nat.testBit_to_div_mod]
  rcases Nat.lt_or_ge n (2 ^ 31) with h | h
  · have hd : n / 2 ^ 31 = 0 := Nat.div_eq_of_lt h
    simp [hd]
    omega
  · have hd : n / 2 ^ 31 = 1 := by omega
    simp [hd]
    omega

/-- Helper: the value `reg_load_cell` produces once the range check and the
read have gone through, as a function of the decoded unsigned (`u`) and signed
(`L`) length and the decoded tag type `T`. -/
def regCellFrom (inum : Nat) (u : Nat) (L : Int) (T : RegRecordType) :
    Except TskErr REGFS_CELL :=
  let al : Bool × Nat :=
    if u &&& (1 <<< 31) ≠ 0 then (true, ((-1 * L) % (2 ^ 32 : Int)).toNat)
    else (false, u)
  if al.2 ≥ HBIN_SIZE then .error .inodeCor
  else .ok { inum := inum, is_allocated := al.1, length := al.2, ctype := T }

lemma regCellFrom_spec (inum : Nat) (u : Nat) (L : Int) (T : RegRecordType)
    (hu : u < 2 ^ 32)
    (hL : L = if u < 2 ^ 31 then (u : Int) else (u : Int) - 2 ^ 32) :
    ((regCellFrom inum u L T = .error .inodeCor) ↔ 4096 ≤ L.natAbs)
    ∧ ∀ cell, regCellFrom inum u L T = .ok cell →
        (cell.is_allocated = true ↔ L < 0) ∧ cell.length = L.natAbs := by
  rcases Nat.lt_or_ge u (2 ^ 31) with hlt | hge
  · -- sign bit clear: unallocated, length = u = |L|
    have hcond : ¬(u &&& (1 <<< 31) ≠ 0) := by
      rw [and_bit31_ne_zero u hu]; omega
    have hLu : L = (u : Int) := by rw [hL, if_pos hlt]
    have habs : L.natAbs = u := by rw [hLu]; exact Int.natAbs_ofNat u
    have hnotneg : ¬L < 0 := by rw [hLu]; omega
    unfold regCellFrom
    rw [if_neg hcond]
    show ((if u ≥ 4096 then (.error .inodeCor : Except TskErr REGFS_CELL)
            else .ok ⟨inum, false, u, T⟩) = .error .inodeCor ↔ 4096 ≤ L.natAbs)
      ∧ ∀ cell, (if u ≥ 4096 then (.error .inodeCor : Except TskErr REGFS_CELL)
            else .ok ⟨inum, false, u, T⟩) = .ok cell →
          (cell.is_allocated = true ↔ L < 0) ∧ cell.length = L.natAbs
    by_cases hlen : u ≥ 4096
    · rw [if_pos hlen]
      exact ⟨iff_of_true rfl (by omega), fun cell hc => by cases hc⟩
    · rw [if_neg hlen]
      refine ⟨iff_of_false (by simp) (by omega), fun cell hc => ?_⟩
      injection hc with h
      subst h
      exact ⟨iff_of_false (by simp) hnotneg, habs.symm⟩
  · -- sign bit set: allocated, length = 2^32 - u = |L|
    have hcond : u &&& (1 <<< 31) ≠ 0 := by
      rw [and_bit31_ne_zero u hu]; omega
    have hLu : L = (u : Int) - 2 ^ 32 := by rw [hL, if_neg (by omega)]
    have hneg : L < 0 := by rw [hLu]; omega
    have habs : L.natAbs = 2 ^ 32 - u := by rw [hLu]; omega
    have hlenval : ((-1 * L) % (2 ^ 32 : Int)).toNat = 2 ^ 32 - u := by
      rw [hLu]; omega
    unfold regCellFrom
    rw [if_pos hcond]
    show ((if ((-1 * L) % (2 ^ 32 : Int)).toNat ≥ 4096
            then (.error .inodeCor : Except TskErr REGFS_CELL)
            else .ok ⟨inum, true, ((-1 * L) % (2 ^ 32 : Int)).toNat, T⟩)
              = .error .inodeCor ↔ 4096 ≤ L.natAbs)
      ∧ ∀ cell, (if ((-1 * L) % (2 ^ 32 : Int)).toNat ≥ 4096
            then (.error .inodeCor : Except TskErr REGFS_CELL)
            else .ok ⟨inum, true, ((-1 * L) % (2 ^ 32 : Int)).toNat, T⟩) = .ok cell →
          (cell.is_allocated = true ↔ L < 0) ∧ cell.length = L.natAbs
    rw [hlenval]
    by_cases hlen : 2 ^ 32 - u ≥ 4096
    · rw [if_pos hlen]
      exact ⟨iff_of_true rfl (by omega), fun cell hc => by cases hc⟩
    · rw [if_neg hlen]
      refine ⟨iff_of_false (by simp) (by omega), fun cell hc => ?_⟩
      injection hc with h
      subst h
      exact ⟨iff_of_true rfl hneg, habs.symm⟩

/-- Once the range check passes and the 6-byte read succeeds,
`reg_load_cell` is `regCellFrom` of the decoded fields. -/
lemma reg_load_cell_eq_from (fs : RegFs) (d : Disk) (inum : Nat)
    (hrange : ¬(inum < fs.first_block ∨ inum > fs.last_block))
    (buf : Nat → Nat) (hb : tsk_fs_read d inum 6 = some buf) :
    reg_load_cell fs d inum =
      regCellFrom inum (tsk_getu32 fs.endian buf) (tsk_gets32 fs.endian buf)
        (regTypeOf (tsk_getu16 fs.endian (fun j => buf (4 + j)))) := by
  unfold reg_load_cell regCellFrom
  rw [if_neg hrange, hb]

lemma regCellFrom_ne_blkNum (inum u : Nat) (L : Int) (T : RegRecordType) :
    regCellFrom inum u L T ≠ .error .blkNum := by
  intro h
  simp only [regCellFrom] at h
  split at h <;> split at h <;> simp_all

/-- Claim C5: for every 6-byte Registry cell header whose first four bytes
decode as the signed 32-bit little-endian integer `L`, `reg_load_cell` sets
`is_allocated` to true iff `L < 0`, sets `length` to `|L|`, and fails with
`INODE_COR` exactly when that length is at least `HBIN_SIZE = 4096`. -/
theorem reg_cell_sign_rule (fs : RegFs) (d : Disk) (inum : Nat)
    (hen : fs.endian = .little)
    (hlo : fs.first_block ≤ inum) (hhi : inum ≤ fs.last_block)
    (hread : inum + 6 ≤ d.size) :
    ((reg_load_cell fs d inum = .error .inodeCor) ↔
      4096 ≤ (tsk_gets32 .little (fun j => d.read8 (inum + j))).natAbs)
    ∧ ∀ cell, reg_load_cell fs d inum = .ok cell →
        (cell.is_allocated = true ↔ tsk_gets32 .little (fun j => d.read8 (inum + j)) < 0)
        ∧ cell.length = (tsk_gets32 .little (fun j => d.read8 (inum + j))).natAbs := by
  have hrange : ¬(inum < fs.first_block ∨ inum > fs.last_block) := by omega
  have hb : tsk_fs_read d inum 6 = some (fun j => d.read8 (inum + j)) := by
    simp [tsk_fs_read, hread]
  have hstep : reg_load_cell fs d inum =
      regCellFrom inum (tsk_getu32 .little (fun j => d.read8 (inum + j)))
        (tsk_gets32 .little (fun j => d.read8 (inum + j)))
        (regTypeOf (tsk_getu16 .little (fun j => d.read8 (inum + (4 + j))))) := by
    rw [reg_load_cell_eq_from fs d inum hrange _ hb, hen]
  rw [hstep]
  exact regCellFrom_spec _ _ _ _ (tsk_getu32_lt d inum) rfl

/-- Decidable equality for `Except`, needed to evaluate results concretely. -/
instance decEqExcept {e a : Type} [DecidableEq e] [DecidableEq a] :
    DecidableEq (Except e a) := fun x y =>
  match x, y with
  | .error u, .error v =>
    if h : u = v then isTrue (by rw [h]) else isFalse (fun hh => h (by cases hh; rfl))
  | .error _, .ok _ => isFalse (fun hh => by cases hh)
  | .ok _, .error _ => isFalse (fun hh => by cases hh)
  | .ok u, .ok v =>
    if h : u = v then isTrue (by rw [h]) else isFalse (fun hh => h (by cases hh; rfl))

/-- Concrete hive handle used by the Registry witnesses. -/
def regW : RegFs := regfs_open_fields 8192

/-- Scenario S6 of the spec: bytes `F8 FF FF FF 6E 6B` at offset 0x1000. -/
def regCellDisk : Disk :=
  ⟨8192, fun off =>
    if off = 4096 then 0xF8
    else if 4097 ≤ off ∧ off ≤ 4099 then 0xFF
    else if off = 4100 then 0x6E
    else if off = 4101 then 0x6B
    else 0⟩

theorem reg_cell_sign_rule_witness :
    reg_load_cell regW regCellDisk 4096 = .ok ⟨4096, true, 8, .nk⟩
    ∧ (((reg_load_cell regW regCellDisk 4096 = .error .inodeCor) ↔
        4096 ≤ (tsk_gets32 .little (fun j => regCellDisk.read8 (4096 + j))).natAbs)
      ∧ ∀ cell, reg_load_cell regW regCellDisk 4096 = .ok cell →
          (cell.is_allocated = true ↔
            tsk_gets32 .little (fun j => regCellDisk.read8 (4096 + j)) < 0)
          ∧ cell.length =
            (tsk_gets32 .little (fun j => regCellDisk.read8 (4096 + j))).natAbs) :=
  ⟨by decide,
   reg_cell_sign_rule regW regCellDisk 4096 rfl (by decide) (by decide) (by decide)⟩

/-- Claim C6 (amended): `reg_load_cell` rejects exactly the offsets outside
the *block* range `[first_block, last_block] = [0, last_hbin_offset]` with a
BLK_NUM error — not the inode range `[first_inum, last_inum]` — and proceeds
to the read for every offset inside the block range. -/
theorem reg_load_cell_block_range (H : Nat) (d : Disk) (inum : Nat) :
    reg_load_cell (regfs_open_fields H) d inum = .error .blkNum ↔ H < inum := by
  unfold reg_load_cell
  by_cases hr : inum < (regfs_open_fields H).first_block ∨
      inum > (regfs_open_fields H).last_block
  · rw [if_pos hr]
    refine iff_of_true rfl ?_
    simp only [regfs_open_fields] at hr
    omega
  · rw [if_neg hr]
    have hnot : ¬ H < inum := by
      simp only [regfs_open_fields] at hr
      omega
    refine iff_of_false ?_ hnot
    rcases htf : tsk_fs_read d inum 6 with _ | buf
    · intro hh; simp at hh
    · have hq := reg_load_cell_eq_from (regfs_open_fields H) d inum hr buf htf
      unfold reg_load_cell at hq
      rw [if_neg hr, htf] at hq
      rw [hq]
      exact regCellFrom_ne_blkNum _ _ _ _

/-- Counterexample to claim C6 as stated: in the hive opened with
`last_hbin_offset = 8192`, offset 0 lies outside the inode range
`[first_inum, last_inum] = [4096, 12288]`, yet `reg_load_cell` does not
reject it with BLK_NUM — it proceeds to read and returns a cell. -/
theorem reg_load_cell_inode_range_cex :
    0 < (regfs_open_fields 8192).first_inum ∧
    reg_load_cell (regfs_open_fields 8192) ⟨4096, fun _ => 0⟩ 0 =
      .ok ⟨0, false, 0, .unknown⟩ := by
  decide

/-! ### Registry block walk (claim C7) -/

lemma regWalkLoop_cont_spec (fs : RegFs) (d : Disk) (count : Nat) :
    ∀ blknum,
      (∀ b, b < blknum + count → blknum ≤ b → b * fs.block_size + HBIN_SIZE ≤ d.size) →
      regWalkLoop fs d (fun _ _ _ => .cont) count blknum =
        (0, (List.range' blknum count).map (fun b =>
          (b, FLAG_ALLOC ||| FLAG_META ||| FLAG_CONT ||| FLAG_RAW,
           (List.range HBIN_SIZE).map (fun j => d.read8 (b * fs.block_size + j))))) := by
  induction count with
  | zero => intro blknum _; simp [regWalkLoop]
  | succ n ih =>
    intro blknum h
    have hrd : tsk_fs_read_block fs.block_size d blknum HBIN_SIZE
        = some (fun j => d.read8 (blknum * fs.block_size + j)) := by
      have hsz := h blknum (by omega) (by omega)
      simp [tsk_fs_read_block, tsk_fs_read, hsz]
    have ihx := ih (blknum + 1) (fun b hb1 hb2 => h b (by omega) (by omega))
    simp only [regWalkLoop, hrd, ihx, List.range'_succ, List.map_cons]

lemma regWalkLoop_shortread (fs : RegFs) (d : Disk) (bfail : Nat) (count : Nat) :
    ∀ blknum,
      (∀ b, b < bfail → blknum ≤ b → b * fs.block_size + HBIN_SIZE ≤ d.size) →
      blknum ≤ bfail → bfail < blknum + count →
      d.size < bfail * fs.block_size + HBIN_SIZE →
      (regWalkLoop fs d (fun _ _ _ => .cont) count blknum).1 = 1 := by
  induction count with
  | zero => intro blknum _ h1 h2 _; omega
  | succ n ih =>
    intro blknum h hle hlt hfail
    by_cases heq : blknum = bfail
    · subst heq
      have hrd : tsk_fs_read_block fs.block_size d blknum HBIN_SIZE = none := by
        simp only [tsk_fs_read_block, tsk_fs_read]
        rw [if_neg (by omega)]
      simp [regWalkLoop, hrd]
    · have hlt2 : blknum < bfail := by omega
      have hrd : tsk_fs_read_block fs.block_size d blknum HBIN_SIZE
          = some (fun j => d.read8 (blknum * fs.block_size + j)) := by
        have hsz := h blknum hlt2 (by omega)
        simp [tsk_fs_read_block, tsk_fs_read, hsz]
      have ihx := ih (blknum + 1) (fun b hb1 hb2 => h b (by omega) (by omega))
        (by omega) (by omega) hfail
      simp only [regWalkLoop, hrd]
      exact ihx

/-- The loop when the callback answers `v ∈ {STOP, ERROR}` at block `bstop`
and CONTINUE before it: the walk returns `rv` (0 for STOP, 1 for ERROR)
having delivered exactly the blocks up to and including `bstop`. -/
lemma regWalkLoop_until (fs : RegFs) (d : Disk) (bstop : Nat) (v : WalkRet) (rv : Nat)
    (hv : (v = WalkRet.stop ∧ rv = 0) ∨ (v = WalkRet.error ∧ rv = 1)) (count : Nat) :
    ∀ blknum,
      (∀ b, b ≤ bstop → blknum ≤ b → b * fs.block_size + HBIN_SIZE ≤ d.size) →
      blknum ≤ bstop → bstop < blknum + count →
      regWalkLoop fs d (fun a _ _ => if a = bstop then v else .cont) count blknum =
        (rv, (List.range' blknum (bstop + 1 - blknum)).map (fun b =>
          (b, FLAG_ALLOC ||| FLAG_META ||| FLAG_CONT ||| FLAG_RAW,
           (List.range HBIN_SIZE).map (fun j => d.read8 (b * fs.block_size + j))))) := by
  induction count with
  | zero => intro blknum _ h1 h2; omega
  | succ n ih =>
    intro blknum h hle hlt
    have hrd : tsk_fs_read_block fs.block_size d blknum HBIN_SIZE
        = some (fun j => d.read8 (blknum * fs.block_size + j)) := by
      have hsz := h blknum hle (by omega)
      simp [tsk_fs_read_block, tsk_fs_read, hsz]
    by_cases heq : blknum = bstop
    · have hone : bstop + 1 - blknum = 1 := by omega
      rw [heq] at hrd hone
      rcases hv with ⟨hv1, hv2⟩ | ⟨hv1, hv2⟩ <;>
        simp [regWalkLoop, hrd, heq, hv1, hv2, hone, List.range'_succ]
    · have hlt2 : blknum < bstop := by omega
      have ihx := ih (blknum + 1) (fun b hb1 hb2 => h b hb1 (by omega))
        (by omega) (by omega)
      have hsplit : bstop + 1 - blknum = (bstop - blknum) + 1 := by omega
      have htail : bstop + 1 - (blknum + 1) = bstop - blknum := by omega
      rw [htail] at ihx
      simp only [regWalkLoop, hrd, if_neg heq, ihx, hsplit, List.range'_succ,
        List.map_cons]

/-- Claim C7: for every in-bounds range and a callback that always CONTINUEs,
`reg_block_walk` invokes the callback exactly once per block
`s, s+1, …, e-1` in ascending order (`e` excluded), each time with flags
ALLOC|META|CONT|RAW and the `HBIN_SIZE = 4096` bytes read at byte offset
`blk * 4096`, and returns 0; a short read (disk `dfail`, failing first at
block `bf`) makes it return 1; a callback STOP at block `bc` ends the walk
successfully after delivering blocks `s..bc`; a callback ERROR there ends it
with failure 1 after the same deliveries. -/
theorem reg_block_walk_claim (H : Nat) (d dfail : Disk) (s e bf bc : Nat)
    (aflags : WalkFlags)
    (hs : s ≤ H) (he : e ≤ H)
    (hrd : ∀ b, b < e → s ≤ b → b * 4096 + 4096 ≤ d.size)
    (hbf1 : s ≤ bf) (hbf2 : bf < e)
    (hrdf : ∀ b, b < bf → s ≤ b → b * 4096 + 4096 ≤ dfail.size)
    (hfail : dfail.size < bf * 4096 + 4096)
    (hbc1 : s ≤ bc) (hbc2 : bc < e) :
    (reg_block_walk (regfs_open_fields H) d s e aflags (fun _ _ _ => .cont) =
      (0, (List.range' s (e - s)).map (fun b =>
        (b, FLAG_ALLOC ||| FLAG_META ||| FLAG_CONT ||| FLAG_RAW,
         (List.range 4096).map (fun j => d.read8 (b * 4096 + j))))))
    ∧ (reg_block_walk (regfs_open_fields H) dfail s e aflags (fun _ _ _ => .cont)).1 = 1
    ∧ (reg_block_walk (regfs_open_fields H) d s e aflags
        (fun a _ _ => if a = bc then .stop else .cont) =
      (0, (List.range' s (bc + 1 - s)).map (fun b =>
        (b, FLAG_ALLOC ||| FLAG_META ||| FLAG_CONT ||| FLAG_RAW,
         (List.range 4096).map (fun j => d.read8 (b * 4096 + j))))))
    ∧ (reg_block_walk (regfs_open_fields H) d s e aflags
        (fun a _ _ => if a = bc then .error else .cont) =
      (1, (List.range' s (bc + 1 - s)).map (fun b =>
        (b, FLAG_ALLOC ||| FLAG_META ||| FLAG_CONT ||| FLAG_RAW,
         (List.range 4096).map (fun j => d.read8 (b * 4096 + j)))))) := by
  have hbs : (regfs_open_fields H).block_size = 4096 := rfl
  have hin : ¬(s < (regfs_open_fields H).first_block ∨ s > (regfs_open_fields H).last_block) := by
    simp only [regfs_open_fields]
    omega
  have hin2 : ¬(e < (regfs_open_fields H).first_block ∨ e > (regfs_open_fields H).last_block) := by
    simp only [regfs_open_fields]
    omega
  refine ⟨?_, ?_, ?_, ?_⟩
  · rw [reg_block_walk, if_neg hin, if_neg hin2]
    rw [regWalkLoop_cont_spec (regfs_open_fields H) d (e - s) s
      (fun b hb1 hb2 => by rw [hbs]; exact hrd b (by omega) hb2)]
    rfl
  · rw [reg_block_walk, if_neg hin, if_neg hin2]
    exact regWalkLoop_shortread (regfs_open_fields H) dfail bf (e - s) s
      (fun b hb1 hb2 => by rw [hbs]; exact hrdf b hb1 hb2)
      hbf1 (by omega) (by rw [hbs]; exact hfail)
  · rw [reg_block_walk, if_neg hin, if_neg hin2]
    rw [regWalkLoop_until (regfs_open_fields H) d bc .stop 0 (Or.inl ⟨rfl, rfl⟩)
      (e - s) s (fun b hb1 hb2 => by rw [hbs]; exact hrd b (by omega) hb2)
      hbc1 (by omega)]
    rfl
  · rw [reg_block_walk, if_neg hin, if_neg hin2]
    rw [regWalkLoop_until (regfs_open_fields H) d bc .error 1 (Or.inr ⟨rfl, rfl⟩)
      (e - s) s (fun b hb1 hb2 => by rw [hbs]; exact hrd b (by omega) hb2)
      hbc1 (by omega)]
    rfl

/-- Witness for C7 at `H = 2`, range `[0, 2)`, stop/error block 1:
both disks are concrete so every hypothesis evaluates. -/
theorem reg_block_walk_claim_witness :
    ((reg_block_walk (regfs_open_fields 2) ⟨8192, fun _ => 7⟩ 0 2
        ⟨true, true, true, true⟩ (fun _ _ _ => .cont) =
      (0, (List.range' 0 (2 - 0)).map (fun b =>
        (b, FLAG_ALLOC ||| FLAG_META ||| FLAG_CONT ||| FLAG_RAW,
         (List.range 4096).map (fun j => Disk.read8 ⟨8192, fun _ => 7⟩ (b * 4096 + j))))))
    ∧ (reg_block_walk (regfs_open_fields 2) ⟨4096, fun _ => 7⟩ 0 2
        ⟨true, true, true, true⟩ (fun _ _ _ => .cont)).1 = 1
    ∧ (reg_block_walk (regfs_open_fields 2) ⟨8192, fun _ => 7⟩ 0 2
        ⟨true, true, true, true⟩ (fun a _ _ => if a = 1 then .stop else .cont) =
      (0, (List.range' 0 (1 + 1 - 0)).map (fun b =>
        (b, FLAG_ALLOC ||| FLAG_META ||| FLAG_CONT ||| FLAG_RAW,
         (List.range 4096).map (fun j => Disk.read8 ⟨8192, fun _ => 7⟩ (b * 4096 + j))))))
    ∧ (reg_block_walk (regfs_open_fields 2) ⟨8192, fun _ => 7⟩ 0 2
        ⟨true, true, true, true⟩ (fun a _ _ => if a = 1 then .error else .cont) =
      (1, (List.range' 0 (1 + 1 - 0)).map (fun b =>
        (b, FLAG_ALLOC ||| FLAG_META ||| FLAG_CONT ||| FLAG_RAW,
         (List.range 4096).map (fun j => Disk.read8 ⟨8192, fun _ => 7⟩ (b * 4096 + j))))))) :=
  reg_block_walk_claim 2 ⟨8192, fun _ => 7⟩ ⟨4096, fun _ => 7⟩ 0 2 1 1
    ⟨true, true, true, true⟩ (by decide) (by decide)
    (by decide) (by decide) (by decide) (by decide) (by decide) (by decide) (by decide)

/-! ## FAT parser (`fatfs.c`): data model and sector cache -/

inductive TskFsType where
  | fat12
  | fat16
  | fat32
  | fatDetect
  | reg
deriving DecidableEq

/-- The FAT sector cache state: per-slot base sector address (`fatc_addr`),
age counter (`fatc_ttl`) and buffer (`fatc_buf`). -/
structure FatCache where
  addr : Nat → Nat
  ttl : Nat → Nat
  buf : Nat → Nat → Nat

/-- The fields of `FATFS_INFO` (plus the embedded `TSK_FS_INFO`) that the
covered functions consult.  `cacheN`/`cacheS` model the compile-time constants
`FAT_CACHE_N`/`FAT_CACHE_S`; see `FAT_CACHE_B`. -/
structure FATFS_INFO where
  ftype : TskFsType
  endian : Endian
  ssize : Nat
  ssize_sh : Nat
  csize : Nat
  numfat : Nat
  firstfatsect : Nat
  firstdatasect : Nat
  firstclustsect : Nat
  clustcnt : Nat
  lastclust : Nat
  first_block : Nat
  last_block : Nat
  block_size : Nat
  cacheN : Nat
  cacheS : Nat
  cache : FatCache

/-- Modelled from the spec: `FAT_CACHE_N`, `FAT_CACHE_S` and `FAT_CACHE_B`
are `#define`s in `tsk_fatfs.h`, which is not among the source files.  §4.2 of
the spec fixes the relation `B = S × sectorSize` (with `S ≥ 2`), so the model
carries N and S as fields and derives B. -/
def FAT_CACHE_B (f : FATFS_INFO) : Nat := f.cacheS * f.ssize

/-- The hit scan of `getFATCacheIdx` (fatfs.c:71-74): first slot whose loaded
window `[addr, addr + FAT_CACHE_S)` contains `sect` and whose ttl is > 0. -/
def cacheHitIdx (f : FATFS_INFO) (sect : Nat) : Option Nat :=
  (List.range f.cacheN).find? (fun i =>
    decide (0 < f.cache.ttl i ∧ f.cache.addr i ≤ sect ∧
      sect < f.cache.addr i + f.cacheS))

/-- The hit-path ttl update (fatfs.c:77-85): every younger used slot ages by
one, the hit slot becomes most-recently-used. -/
def cachePromote (f : FATFS_INFO) (i : Nat) : FatCache :=
  { f.cache with ttl := fun a =>
      if a = i then 1
      else if a < f.cacheN ∧ 0 < f.cache.ttl a ∧ f.cache.ttl a < f.cache.ttl i
      then f.cache.ttl a + 1 else f.cache.ttl a }

/-- The victim scan of the miss path (fatfs.c:96-102): last slot that is
unused or has ttl ≥ FAT_CACHE_N; `cidx` defaults to 0. -/
def cacheVictim (f : FATFS_INFO) : Nat :=
  (List.range f.cacheN).foldl
    (fun c i => if f.cache.ttl i = 0 ∨ f.cache.ttl i ≥ f.cacheN then i else c) 0

/-- The miss-path state update (fatfs.c:120-133): an unused victim is first
given ttl `N + 1` so that every used slot ages, then the victim becomes MRU
with the freshly read buffer and base sector. -/
def cacheMiss (f : FATFS_INFO) (cidx sect : Nat) (newbuf : Nat → Nat) : FatCache :=
  let t0 := if f.cache.ttl cidx = 0 then f.cacheN + 1 else f.cache.ttl cidx
  { addr := Function.update f.cache.addr cidx sect
    ttl := fun a =>
      if a = cidx then 1
      else if a < f.cacheN ∧ 0 < f.cache.ttl a ∧ f.cache.ttl a < t0
      then f.cache.ttl a + 1 else f.cache.ttl a
    buf := Function.update f.cache.buf cidx newbuf }

/-- `getFATCacheIdx` (fatfs.c:63-135): LRU acquire of the cache slot covering
FAT sector `sect`.  Returns the slot index and the new cache state; `-1` of
the C becomes a READ error. -/
def getFATCacheIdx (f : FATFS_INFO) (d : Disk) (sect : Nat) :
    Except TskErr (Nat × FatCache) :=
  match cacheHitIdx f sect with
  | some i => .ok (i, cachePromote f i)
  | none =>
    let cidx := cacheVictim f
    match tsk_fs_read d (sect * f.block_size) (FAT_CACHE_B f) with
    | none => .error .read
    | some newbuf => .ok (cidx, cacheMiss f cidx sect newbuf)

/-- A sequence of `acquire` calls, threading the cache state and remembering
the most recently returned slot. -/
def runAcquires (d : Disk) :
    FATFS_INFO → Option Nat → List Nat → Option (FATFS_INFO × Option Nat)
  | f, last, [] => some (f, last)
  | f, _, s :: rest =>
    match getFATCacheIdx f d s with
    | .error _ => none
    | .ok (i, c) => runAcquires d { f with cache := c } (some i) rest

/-! ### The cache ttl invariant (claims C2 and C8)

In every reachable state the used slots carry ttl values that are exactly
`{1, …, k}` for `k` = number of used slots. -/

def CacheInv (N : Nat) (ttl : Nat → Nat) (k : Nat) : Prop :=
  k ≤ N ∧ (∀ i, i < N → ttl i ≤ k) ∧
  (∀ v, 1 ≤ v → v ≤ k → ∃ i, i < N ∧ ttl i = v) ∧
  (∀ i j, i < N → j < N → 0 < ttl i → ttl i = ttl j → i = j)

lemma cacheHitIdx_spec (f : FATFS_INFO) (sect i : Nat)
    (h : cacheHitIdx f sect = some i) :
    i < f.cacheN ∧ 0 < f.cache.ttl i ∧ f.cache.addr i ≤ sect ∧
      sect < f.cache.addr i + f.cacheS := by
  have h1 := List.find?_some h
  have h2 := List.mem_of_find?_eq_some h
  rw [List.mem_range] at h2
  rw [decide_eq_true_eq] at h1
  exact ⟨h2, h1.1, h1.2.1, h1.2.2⟩

/-- The aging step shared by the hit path and the used-victim miss path
preserves the invariant (with `t = ttl i` the promoted slot's old ttl). -/
lemma promote_step_inv (N : Nat) (ttl : Nat → Nat) (k i : Nat)
    (hinv : CacheInv N ttl k) (hi : i < N) (hpos : 0 < ttl i) :
    CacheInv N (fun a =>
      if a = i then 1
      else if a < N ∧ 0 < ttl a ∧ ttl a < ttl i then ttl a + 1 else ttl a) k := by
  obtain ⟨hkN, hbound, hsurj, hinj⟩ := hinv
  have hti : ttl i ≤ k := hbound i hi
  have hk1 : 1 ≤ k := by omega
  refine ⟨hkN, ?_, ?_, ?_⟩
  · intro a ha
    simp only []
    by_cases hai : a = i
    · rw [if_pos hai]; omega
    · rw [if_neg hai]
      by_cases hinc : a < N ∧ 0 < ttl a ∧ ttl a < ttl i
      · rw [if_pos hinc]; omega
      · rw [if_neg hinc]; exact hbound a ha
  · intro v hv1 hvk
    by_cases hv1' : v = 1
    · refine ⟨i, hi, ?_⟩
      simp only []
      rw [if_pos trivial]
      omega
    · by_cases hvt : v ≤ ttl i
      · obtain ⟨j, hj, hjv⟩ := hsurj (v - 1) (by omega) (by omega)
        have hji : j ≠ i := by intro he; rw [he] at hjv; omega
        refine ⟨j, hj, ?_⟩
        simp only []
        rw [if_neg hji, if_pos ⟨hj, by omega, by omega⟩]
        omega
      · obtain ⟨j, hj, hjv⟩ := hsurj v (by omega) hvk
        have hji : j ≠ i := by intro he; rw [he] at hjv; omega
        refine ⟨j, hj, ?_⟩
        simp only []
        rw [if_neg hji, if_neg (by rintro ⟨-, -, hlt⟩; omega)]
        exact hjv
  · intro a b ha hb hpa hab
    simp only [] at hpa hab
    by_cases hai : a = i
    · by_cases hbi : b = i
      · rw [hai, hbi]
      · exfalso
        rw [if_pos hai, if_neg hbi] at hab
        by_cases hbinc : b < N ∧ 0 < ttl b ∧ ttl b < ttl i
        · rw [if_pos hbinc] at hab; omega
        · rw [if_neg hbinc] at hab
          have h0b : 0 < ttl b := by omega
          have hnb : ¬(ttl b < ttl i) := fun hlt => hbinc ⟨hb, h0b, hlt⟩
          exact hbi (hinj b i hb hi h0b (by omega))
    · by_cases hbi : b = i
      · exfalso
        rw [if_neg hai, if_pos hbi] at hab
        rw [if_neg hai] at hpa
        by_cases hainc : a < N ∧ 0 < ttl a ∧ ttl a < ttl i
        · rw [if_pos hainc] at hab; omega
        · rw [if_neg hainc] at hab hpa
          have hna : ¬(ttl a < ttl i) := fun hlt => hainc ⟨ha, hpa, hlt⟩
          exact hai (hinj a i ha hi hpa (by omega))
      · rw [if_neg hai] at hab hpa
        rw [if_neg hbi] at hab
        by_cases hainc : a < N ∧ 0 < ttl a ∧ ttl a < ttl i <;>
          by_cases hbinc : b < N ∧ 0 < ttl b ∧ ttl b < ttl i
        · rw [if_pos hainc] at hab hpa
          rw [if_pos hbinc] at hab
          exact hinj a b ha hb (by omega) (by omega)
        · rw [if_pos hainc] at hab hpa
          rw [if_neg hbinc] at hab
          exfalso
          have h0b : 0 < ttl b := by omega
          have hnb : ¬(ttl b < ttl i) := fun hlt => hbinc ⟨hb, h0b, hlt⟩
          exact hbi (hinj b i hb hi h0b (by omega))
        · rw [if_neg hainc] at hab hpa
          rw [if_pos hbinc] at hab
          exfalso
          have hna : ¬(ttl a < ttl i) := fun hlt => hainc ⟨ha, hpa, hlt⟩
          exact hai (hinj a i ha hi hpa (by omega))
        · rw [if_neg hainc] at hab hpa
          rw [if_neg hbinc] at hab
          exact hinj a b ha hb hpa hab

/-- The unused-victim miss path: the fresh slot enters as MRU, the used-slot
count grows by one. -/
lemma miss_unused_inv (N : Nat) (ttl : Nat → Nat) (k cidx : Nat)
    (hinv : CacheInv N ttl k) (hc : cidx < N) (h0 : ttl cidx = 0) :
    CacheInv N (fun a =>
      if a = cidx then 1
      else if a < N ∧ 0 < ttl a ∧ ttl a < N + 1 then ttl a + 1 else ttl a)
      (k + 1) := by
  obtain ⟨hkN, hbound, hsurj, hinj⟩ := hinv
  have hN1 : 1 ≤ N := by omega
  -- k ≤ N - 1 because the k used slots avoid cidx
  have hsub : ∀ v ∈ Finset.Icc 1 k, ∃ a ∈ (Finset.range N).erase cidx, ttl a = v := by
    intro v hv
    rw [Finset.mem_Icc] at hv
    obtain ⟨j, hj, hjv⟩ := hsurj v hv.1 hv.2
    refine ⟨j, ?_, hjv⟩
    rw [Finset.mem_erase, Finset.mem_range]
    refine ⟨?_, hj⟩
    intro he; rw [he] at hjv; omega
  have hcard : (Finset.Icc 1 k).card ≤ ((Finset.range N).erase cidx).card := by
    apply Finset.card_le_card_of_surjOn ttl
    intro v hv
    obtain ⟨a, ha, hav⟩ := hsub v hv
    exact ⟨a, ha, hav⟩
  rw [Nat.card_Icc, Finset.card_erase_of_mem (Finset.mem_range.mpr hc),
    Finset.card_range] at hcard
  have hk1N : k + 1 ≤ N := by omega
  refine ⟨hk1N, ?_, ?_, ?_⟩
  · intro a ha
    simp only []
    by_cases hac : a = cidx
    · rw [if_pos hac]; omega
    · rw [if_neg hac]
      have := hbound a ha
      by_cases hinc : a < N ∧ 0 < ttl a ∧ ttl a < N + 1
      · rw [if_pos hinc]; omega
      · rw [if_neg hinc]; omega
  · intro v hv1 hvk
    by_cases hv1' : v = 1
    · refine ⟨cidx, hc, ?_⟩
      simp only []
      rw [if_pos trivial]
      omega
    · obtain ⟨j, hj, hjv⟩ := hsurj (v - 1) (by omega) (by omega)
      have hjc : j ≠ cidx := by intro he; rw [he] at hjv; omega
      refine ⟨j, hj, ?_⟩
      simp only []
      rw [if_neg hjc, if_pos ⟨hj, by omega, by
        have := hbound j hj; omega⟩]
      omega
  · intro a b ha hb hpa hab
    simp only [] at hpa hab
    by_cases hac : a = cidx
    · by_cases hbc : b = cidx
      · rw [hac, hbc]
      · exfalso
        rw [if_pos hac, if_neg hbc] at hab
        by_cases hbinc : b < N ∧ 0 < ttl b ∧ ttl b < N + 1
        · rw [if_pos hbinc] at hab; omega
        · rw [if_neg hbinc] at hab
          have := hbound b hb
          exact hbinc ⟨hb, by omega, by omega⟩
    · by_cases hbc : b = cidx
      · exfalso
        rw [if_neg hac, if_pos hbc] at hab
        rw [if_neg hac] at hpa
        by_cases hainc : a < N ∧ 0 < ttl a ∧ ttl a < N + 1
        · rw [if_pos hainc] at hab; omega
        · rw [if_neg hainc] at hab hpa
          have := hbound a ha
          exact hainc ⟨ha, hpa, by omega⟩
      · rw [if_neg hac] at hab hpa
        rw [if_neg hbc] at hab
        have hba := hbound a ha
        have hbb := hbound b hb
        by_cases hainc : a < N ∧ 0 < ttl a ∧ ttl a < N + 1
        · rw [if_pos hainc] at hab hpa
          by_cases hbinc : b < N ∧ 0 < ttl b ∧ ttl b < N + 1
          · rw [if_pos hbinc] at hab
            exact hinj a b ha hb (by omega) (by omega)
          · rw [if_neg hbinc] at hab
            exact absurd ⟨hb, by omega, by omega⟩ hbinc
        · rw [if_neg hainc] at hab hpa
          exact absurd ⟨ha, hpa, by omega⟩ hainc

/-- In every invariant state at least one slot is unused or has ttl ≥ N. -/
lemma victim_exists (N : Nat) (ttl : Nat → Nat) (k : Nat)
    (hN : 1 ≤ N) (hinv : CacheInv N ttl k) :
    ∃ i, i < N ∧ (ttl i = 0 ∨ ttl i ≥ N) := by
  obtain ⟨hkN, hbound, hsurj, hinj⟩ := hinv
  by_cases hkn : k < N
  · by_contra hcon
    push_neg at hcon
    have hmaps : ∀ a ∈ Finset.range N, ttl a ∈ Finset.Icc 1 k := by
      intro a ha
      rw [Finset.mem_range] at ha
      obtain ⟨hne, hlt⟩ := hcon a ha
      rw [Finset.mem_Icc]
      have := hbound a ha
      omega
    have hinj2 : Set.InjOn ttl (Finset.range N) := by
      intro a ha b hb hab
      rw [Finset.coe_range, Set.mem_Iio] at ha hb
      obtain ⟨hne, -⟩ := hcon a ha
      exact hinj a b ha hb (by omega) hab
    have := Finset.card_le_card_of_injOn ttl hmaps hinj2
    rw [Finset.card_range, Nat.card_Icc] at this
    omega
  · obtain ⟨i, hi, hv⟩ := hsurj N (by omega) (by omega)
    exact ⟨i, hi, Or.inr (by omega)⟩

/-- The victim fold picks a genuine candidate whenever one exists. -/
lemma cacheVictim_spec (f : FATFS_INFO)
    (hex : ∃ i, i < f.cacheN ∧
      (f.cache.ttl i = 0 ∨ f.cache.ttl i ≥ f.cacheN)) :
    cacheVictim f < f.cacheN ∧
      (f.cache.ttl (cacheVictim f) = 0 ∨
       f.cache.ttl (cacheVictim f) ≥ f.cacheN) := by
  unfold cacheVictim
  generalize hM : f.cacheN = M
  rw [hM] at hex
  have main : ∀ (n : Nat), (∃ i, i < n ∧
        (f.cache.ttl i = 0 ∨ f.cache.ttl i ≥ M)) →
      ((List.range n).foldl
        (fun c i => if f.cache.ttl i = 0 ∨ f.cache.ttl i ≥ M then i else c) 0) < n ∧
      (f.cache.ttl ((List.range n).foldl
        (fun c i => if f.cache.ttl i = 0 ∨ f.cache.ttl i ≥ M then i else c) 0) = 0 ∨
       f.cache.ttl ((List.range n).foldl
        (fun c i => if f.cache.ttl i = 0 ∨ f.cache.ttl i ≥ M then i else c) 0) ≥ M) := by
    intro n
    induction n with
    | zero => intro ⟨i, hi, _⟩; omega
    | succ m ih =>
      intro hex2
      rw [List.range_succ, List.foldl_append, List.foldl_cons, List.foldl_nil]
      by_cases hP : f.cache.ttl m = 0 ∨ f.cache.ttl m ≥ M
      · rw [if_pos hP]
        exact ⟨by omega, hP⟩
      · rw [if_neg hP]
        have hex3 : ∃ i, i < m ∧ (f.cache.ttl i = 0 ∨ f.cache.ttl i ≥ M) := by
          obtain ⟨i, hi, hPi⟩ := hex2
          refine ⟨i, ?_, hPi⟩
          rcases Nat.lt_or_ge i m with h | h
          · exact h
          · exfalso
            have : i = m := by omega
            rw [this] at hPi
            exact hP hPi
        obtain ⟨h1, h2⟩ := ih hex3
        exact ⟨by omega, h2⟩
  exact main M hex

/-- A successful acquire preserves the ttl invariant and returns an MRU slot. -/
lemma getFATCacheIdx_inv (f : FATFS_INFO) (d : Disk) (sect k : Nat)
    (hN : 1 ≤ f.cacheN) (hinv : CacheInv f.cacheN f.cache.ttl k) :
    ∀ i c, getFATCacheIdx f d sect = .ok (i, c) →
      ∃ k2, CacheInv f.cacheN c.ttl k2 ∧ i < f.cacheN ∧ c.ttl i = 1 := by
  intro i c h
  unfold getFATCacheIdx at h
  cases hh : cacheHitIdx f sect with
  | some j =>
    rw [hh] at h
    injection h with h'
    injection h' with h1 h2
    obtain ⟨hjN, hjpos, -, -⟩ := cacheHitIdx_spec f sect j hh
    refine ⟨k, ?_, ?_, ?_⟩
    · rw [← h2]
      exact promote_step_inv f.cacheN f.cache.ttl k j hinv hjN hjpos
    · rw [← h1]; exact hjN
    · rw [← h2, ← h1]
      show (cachePromote f j).ttl j = 1
      simp [cachePromote]
  | none =>
    rw [hh] at h
    cases hread : tsk_fs_read d (sect * f.block_size) (FAT_CACHE_B f) with
    | none => rw [hread] at h; cases h
    | some nb =>
      rw [hread] at h
      injection h with h'
      injection h' with h1 h2
      have hvic := cacheVictim_spec f
        (victim_exists f.cacheN f.cache.ttl k hN hinv)
      obtain ⟨hcN, hcand⟩ := hvic
      have hlast : c.ttl i = 1 := by
        rw [← h2, ← h1]
        show (cacheMiss f (cacheVictim f) sect nb).ttl (cacheVictim f) = 1
        simp [cacheMiss]
      rcases hcand with h0 | hge
      · refine ⟨k + 1, ?_, by rw [← h1]; exact hcN, hlast⟩
        have heq : (cacheMiss f (cacheVictim f) sect nb).ttl = fun a =>
            if a = cacheVictim f then 1
            else if a < f.cacheN ∧ 0 < f.cache.ttl a ∧
                f.cache.ttl a < f.cacheN + 1
            then f.cache.ttl a + 1 else f.cache.ttl a := by
          simp [cacheMiss, h0]
        rw [← h2, heq]
        exact miss_unused_inv f.cacheN f.cache.ttl k (cacheVictim f) hinv hcN h0
      · have hpos : 0 < f.cache.ttl (cacheVictim f) := by omega
        refine ⟨k, ?_, by rw [← h1]; exact hcN, hlast⟩
        have heq : (cacheMiss f (cacheVictim f) sect nb).ttl = fun a =>
            if a = cacheVictim f then 1
            else if a < f.cacheN ∧ 0 < f.cache.ttl a ∧
                f.cache.ttl a < f.cache.ttl (cacheVictim f)
            then f.cache.ttl a + 1 else f.cache.ttl a := by
          simp only [cacheMiss,
            if_neg (by omega : ¬f.cache.ttl (cacheVictim f) = 0)]
        rw [← h2, heq]
        exact promote_step_inv f.cacheN f.cache.ttl k (cacheVictim f) hinv hcN hpos

/-- Threading the invariant through a whole acquire sequence. -/
lemma runAcquires_inv (d : Disk) (sects : List Nat) :
    ∀ (f : FATFS_INFO) (last : Option Nat) (k : Nat),
      1 ≤ f.cacheN →
      CacheInv f.cacheN f.cache.ttl k →
      (∀ li, last = some li → li < f.cacheN ∧ f.cache.ttl li = 1) →
      ∀ f2 last2, runAcquires d f last sects = some (f2, last2) →
        f2.cacheN = f.cacheN
        ∧ (∃ k2, CacheInv f2.cacheN f2.cache.ttl k2)
        ∧ (∀ li, last2 = some li → li < f2.cacheN ∧ f2.cache.ttl li = 1) := by
  induction sects with
  | nil =>
    intro f last k hN hinv hlast f2 last2 h
    simp only [runAcquires] at h
    injection h with h'
    injection h' with h1 h2
    rw [← h1, ← h2]
    exact ⟨rfl, ⟨k, hinv⟩, hlast⟩
  | cons s rest ih =>
    intro f last k hN hinv hlast f2 last2 h
    simp only [runAcquires] at h
    cases hacq : getFATCacheIdx f d s with
    | error e => rw [hacq] at h; cases h
    | ok p =>
      obtain ⟨i, c⟩ := p
      rw [hacq] at h
      obtain ⟨k2, hinv2, hiN, hti⟩ :=
        getFATCacheIdx_inv f d s k hN hinv i c hacq
      have hres := ih { f with cache := c } (some i) k2 hN hinv2
        (fun li hli => by
          injection hli with h'
          rw [← h']
          exact ⟨hiN, hti⟩) f2 last2 h
      exact hres

/-- Claim C2: starting from the open-time state (all ttl = 0), after any
sequence of successful `getFATCacheIdx` calls the used slots carry pairwise
distinct ttl values inside `[1, N + 1]`, and exactly one slot has ttl = 1,
namely the one returned by the most recent acquire. -/
theorem fat_cache_ttl_invariant (f : FATFS_INFO) (d : Disk) (sects : List Nat)
    (hN : 1 ≤ f.cacheN) (h0 : ∀ i, i < f.cacheN → f.cache.ttl i = 0) :
    (runAcquires d f none sects).elim True (fun p =>
      (∀ i j, i < f.cacheN → j < f.cacheN → 0 < p.1.cache.ttl i →
         p.1.cache.ttl i = p.1.cache.ttl j → i = j)
      ∧ (∀ i, i < f.cacheN → 0 < p.1.cache.ttl i →
           1 ≤ p.1.cache.ttl i ∧ p.1.cache.ttl i ≤ f.cacheN + 1)
      ∧ p.2.elim True (fun li => li < f.cacheN ∧ p.1.cache.ttl li = 1
          ∧ ∀ j, j < f.cacheN → p.1.cache.ttl j = 1 → j = li)) := by
  have hinv0 : CacheInv f.cacheN f.cache.ttl 0 := by
    refine ⟨Nat.zero_le _, ?_, ?_, ?_⟩
    · intro i hi; rw [h0 i hi]
    · intro v hv1 hv0; omega
    · intro i j hi hj hpos
      rw [h0 i hi] at hpos
      omega
  cases hrun : runAcquires d f none sects with
  | none => trivial
  | some p =>
    obtain ⟨f2, last2⟩ := p
    simp only [Option.elim]
    obtain ⟨hNeq, ⟨k2, hinv2⟩, hlast⟩ :=
      runAcquires_inv d sects f none 0 hN hinv0 (fun li hli => by cases hli)
        f2 last2 hrun
    obtain ⟨hk2N, hbound, hsurj, hinj⟩ := hinv2
    rw [hNeq] at hk2N hbound hsurj hinj
    refine ⟨hinj, ?_, ?_⟩
    · intro i hi hpos
      have := hbound i hi
      omega
    · cases last2 with
      | none => trivial
      | some li =>
        obtain ⟨hliN, hli1⟩ := hlast li rfl
        rw [hNeq] at hliN
        refine ⟨hliN, hli1, ?_⟩
        intro j hj hj1
        exact hinj j li hj hliN (by omega) (by omega)

/-- Claim C8: in every cache state reachable from the all-zero open state by
successful acquires, some slot is unused or has ttl ≥ N, and the victim scan
of the miss path returns such a slot (so the `cidx = 0` default never stands
for a state with zero candidates). -/
theorem fat_cache_victim_total (f : FATFS_INFO) (d : Disk) (sects : List Nat)
    (hN : 1 ≤ f.cacheN) (h0 : ∀ i, i < f.cacheN → f.cache.ttl i = 0) :
    (runAcquires d f none sects).elim True (fun p =>
      (∃ i, i < f.cacheN ∧ (p.1.cache.ttl i = 0 ∨ p.1.cache.ttl i ≥ f.cacheN))
      ∧ cacheVictim p.1 < f.cacheN
      ∧ (p.1.cache.ttl (cacheVictim p.1) = 0 ∨
         p.1.cache.ttl (cacheVictim p.1) ≥ f.cacheN)) := by
  have hinv0 : CacheInv f.cacheN f.cache.ttl 0 := by
    refine ⟨Nat.zero_le _, ?_, ?_, ?_⟩
    · intro i hi; rw [h0 i hi]
    · intro v hv1 hv0; omega
    · intro i j hi hj hpos
      rw [h0 i hi] at hpos
      omega
  cases hrun : runAcquires d f none sects with
  | none => trivial
  | some p =>
    obtain ⟨f2, last2⟩ := p
    simp only [Option.elim]
    obtain ⟨hNeq, ⟨k2, hinv2⟩, -⟩ :=
      runAcquires_inv d sects f none 0 hN hinv0 (fun li hli => by cases hli)
        f2 last2 hrun
    have hex := victim_exists f2.cacheN f2.cache.ttl k2 (by omega) hinv2
    have hvic := cacheVictim_spec f2 hex
    rw [hNeq] at hex hvic
    exact ⟨hex, hvic⟩

/-- Concrete FAT16 instance with a freshly initialized 4-slot cache. -/
def wFat : FATFS_INFO :=
  { ftype := .fat16, endian := .little, ssize := 512, ssize_sh := 9,
    csize := 1, numfat := 1, firstfatsect := 1, firstdatasect := 17,
    firstclustsect := 17, clustcnt := 2, lastclust := 3,
    first_block := 0, last_block := 19, block_size := 512,
    cacheN := 4, cacheS := 2,
    cache := ⟨fun _ => 0, fun _ => 0, fun _ _ => 0⟩ }

/-- All-zero disk large enough for the cache reads of the witnesses. -/
def wDisk : Disk := ⟨4096, fun _ => 0⟩

theorem fat_cache_ttl_invariant_witness :
    (runAcquires wDisk wFat none [0, 2]).isSome = true
    ∧ (runAcquires wDisk wFat none [0, 2]).elim True (fun p =>
      (∀ i j, i < wFat.cacheN → j < wFat.cacheN → 0 < p.1.cache.ttl i →
         p.1.cache.ttl i = p.1.cache.ttl j → i = j)
      ∧ (∀ i, i < wFat.cacheN → 0 < p.1.cache.ttl i →
           1 ≤ p.1.cache.ttl i ∧ p.1.cache.ttl i ≤ wFat.cacheN + 1)
      ∧ p.2.elim True (fun li => li < wFat.cacheN ∧ p.1.cache.ttl li = 1
          ∧ ∀ j, j < wFat.cacheN → p.1.cache.ttl j = 1 → j = li)) :=
  ⟨by decide,
   fat_cache_ttl_invariant wFat wDisk [0, 2] (by decide) (fun i _ => rfl)⟩

theorem fat_cache_victim_total_witness :
    (runAcquires wDisk wFat none [0, 2]).isSome = true
    ∧ (runAcquires wDisk wFat none [0, 2]).elim True (fun p =>
      (∃ i, i < wFat.cacheN ∧
        (p.1.cache.ttl i = 0 ∨ p.1.cache.ttl i ≥ wFat.cacheN))
      ∧ cacheVictim p.1 < wFat.cacheN
      ∧ (p.1.cache.ttl (cacheVictim p.1) = 0 ∨
         p.1.cache.ttl (cacheVictim p.1) ≥ wFat.cacheN)) :=
  ⟨by decide,
   fat_cache_victim_total wFat wDisk [0, 2] (by decide) (fun i _ => rfl)⟩

/-! ## FAT chain resolver (`fatfs_getFAT`, claims C1, C3, C10) -/

/-- Modelled from the spec: the entry masks of `tsk_fatfs.h` (§3:
endOfChainMask ∈ {0x0FFF, 0xFFFF, 0x0FFFFFFF}). -/
def FATFS_12_MASK : Nat := 0xfff
def FATFS_16_MASK : Nat := 0xffff
def FATFS_32_MASK : Nat := 0x0fffffff

/-- The FAT12 branch of `fatfs_getFAT` (fatfs.c:180-249) up to and including
the mask, before the sanity clamp: cache acquire, intra-slot offset, the
reload when the 12-bit value would straddle the end of the slot buffer
(`offs == FAT_CACHE_B - 1`), 16-bit read, odd-cluster shift. -/
def fat12_entry (f : FATFS_INFO) (d : Disk) (clust : Nat) :
    Except TskErr (Nat × FATFS_INFO) :=
  let sect := f.firstfatsect + ((clust + (clust >>> 1)) >>> f.ssize_sh)
  match getFATCacheIdx f d sect with
  | .error e => .error e
  | .ok (cidx, c1) =>
    let f1 := { f with cache := c1 }
    let offs := ((sect - f1.cache.addr cidx) <<< f1.ssize_sh) +
      (clust + (clust >>> 1)) % f1.ssize
    if offs = FAT_CACHE_B f1 - 1 then
      match tsk_fs_read d (sect * f1.block_size) (FAT_CACHE_B f1) with
      | none => .error .read
      | some nb =>
        let f2 := { f1 with cache :=
          { f1.cache with addr := Function.update f1.cache.addr cidx sect,
                          buf := Function.update f1.cache.buf cidx nb } }
        let offs2 := (clust + (clust >>> 1)) % f2.ssize
        let tmp16 := tsk_getu16 f2.endian (fun j => f2.cache.buf cidx (offs2 + j))
        .ok ((if clust &&& 1 ≠ 0 then tmp16 >>> 4 else tmp16) &&& FATFS_12_MASK, f2)
    else
      let tmp16 := tsk_getu16 f1.endian (fun j => f1.cache.buf cidx (offs + j))
      .ok ((if clust &&& 1 ≠ 0 then tmp16 >>> 4 else tmp16) &&& FATFS_12_MASK, f1)

/-- The FAT16 branch of `fatfs_getFAT` (fatfs.c:251-262) before the clamp. -/
def fat16_entry (f : FATFS_INFO) (d : Disk) (clust : Nat) :
    Except TskErr (Nat × FATFS_INFO) :=
  let sect := f.firstfatsect + ((clust <<< 1) >>> f.ssize_sh)
  match getFATCacheIdx f d sect with
  | .error e => .error e
  | .ok (cidx, c1) =>
    let f1 := { f with cache := c1 }
    let offs := ((sect - f1.cache.addr cidx) <<< f1.ssize_sh) +
      (clust <<< 1) % f1.ssize
    .ok (tsk_getu16 f1.endian (fun j => f1.cache.buf cidx (offs + j)) &&&
      FATFS_16_MASK, f1)

/-- The FAT32 branch of `fatfs_getFAT` (fatfs.c:275-286) before the clamp. -/
def fat32_entry (f : FATFS_INFO) (d : Disk) (clust : Nat) :
    Except TskErr (Nat × FATFS_INFO) :=
  let sect := f.firstfatsect + ((clust <<< 2) >>> f.ssize_sh)
  match getFATCacheIdx f d sect with
  | .error e => .error e
  | .ok (cidx, c1) =>
    let f1 := { f with cache := c1 }
    let offs := ((sect - f1.cache.addr cidx) <<< f1.ssize_sh) +
      (clust <<< 2) % f1.ssize
    .ok (tsk_getu32 f1.endian (fun j => f1.cache.buf cidx (offs + j)) &&&
      FATFS_32_MASK, f1)

/-- `fatfs_getFAT` (fatfs.c:150-307).  The result triple is the C return code
(`none` = 0, `some err` = 1 with that `tsk_errno`), the state after the call,
and the final `*value` (which keeps the caller's `value0` whenever the C does
not write through the pointer — in particular in the silently accepted
`lastclust + 1` branch, which returns success without storing anything). -/
def fatfs_getFAT (f : FATFS_INFO) (d : Disk) (clust : Nat) (value0 : Nat) :
    Option TskErr × FATFS_INFO × Nat :=
  if clust > f.lastclust then
    if clust = f.lastclust + 1 ∧
        f.firstclustsect + f.csize * f.clustcnt - 1 ≠ f.last_block then
      (none, f, value0)
    else (some .arg, f, value0)
  else
    match f.ftype with
    | .fat12 =>
      if clust &&& 0xf000 ≠ 0 then (some .arg, f, value0)
      else
        match fat12_entry f d clust with
        | .error e => (some e, f, value0)
        | .ok (v, f2) =>
          (none, f2,
            if f.lastclust < v ∧ v < (0x0ffffff7 &&& FATFS_12_MASK) then 0 else v)
    | .fat16 =>
      match fat16_entry f d clust with
      | .error e => (some e, f, value0)
      | .ok (v, f2) =>
        (none, f2,
          if f.lastclust < v ∧ v < (0x0ffffff7 &&& FATFS_16_MASK) then 0 else v)
    | .fat32 =>
      match fat32_entry f d clust with
      | .error e => (some e, f, value0)
      | .ok (v, f2) =>
        (none, f2,
          if f.lastclust < v ∧ v < (0x0ffffff7 &&& FATFS_32_MASK) then 0 else v)
    | _ => (some .arg, f, value0)

/-- The per-flavor end-of-chain mask (`fatfs->mask`). -/
def maskOfType : TskFsType → Nat
  | .fat12 => FATFS_12_MASK
  | .fat16 => FATFS_16_MASK
  | .fat32 => FATFS_32_MASK
  | _ => 0

/-- Observer: the raw masked FAT entry the resolver reads for `clust`, before
the sanity clamp (composition of the per-flavor entry readers). -/
def fatEntryRaw (f : FATFS_INFO) (d : Disk) (clust : Nat) : Option Nat :=
  match f.ftype with
  | .fat12 => (fat12_entry f d clust).toOption.map Prod.fst
  | .fat16 => (fat16_entry f d clust).toOption.map Prod.fst
  | .fat32 => (fat32_entry f d clust).toOption.map Prod.fst
  | _ => none

/-- Claim C1: for an in-range cluster, if the raw masked FAT entry `v`
satisfies `lastclust < v < (0x0ffffff7 & mask)`, then `fatfs_getFAT` stores 0
(FREE) into `*value` and returns success — the clamp is a silent repair. -/
theorem fat_range_clamp (f : FATFS_INFO) (d : Disk) (clust v value0 : Nat)
    (hin : clust ≤ f.lastclust)
    (h12 : f.ftype = .fat12 → clust &&& 0xf000 = 0)
    (hflavor : f.ftype = .fat12 ∨ f.ftype = .fat16 ∨ f.ftype = .fat32)
    (hraw : fatEntryRaw f d clust = some v)
    (hlo : f.lastclust < v)
    (hhi : v < (0x0ffffff7 &&& maskOfType f.ftype)) :
    (fatfs_getFAT f d clust value0).1 = none ∧
    (fatfs_getFAT f d clust value0).2.2 = 0 := by
  have hnot : ¬(clust > f.lastclust) := by omega
  unfold fatEntryRaw at hraw
  unfold fatfs_getFAT
  rw [if_neg hnot]
  rcases hflavor with ht | ht | ht <;> rw [ht] <;> rw [ht] at hraw hhi
  · rw [if_neg (show ¬(clust &&& 0xf000 ≠ 0) by simp [h12 ht])]
    cases hfe : fat12_entry f d clust with
    | error e => rw [hfe] at hraw; simp [Except.toOption] at hraw
    | ok p =>
      obtain ⟨w, f2⟩ := p
      rw [hfe] at hraw
      simp only [Except.toOption, Option.map_some] at hraw
      injection hraw with hw
      have hw2 : w = v := hw
      subst hw2
      refine ⟨rfl, ?_⟩
      show (if f.lastclust < w ∧ w < (0x0ffffff7 &&& FATFS_12_MASK) then 0 else w) = 0
      rw [if_pos ⟨hlo, hhi⟩]
  · cases hfe : fat16_entry f d clust with
    | error e => rw [hfe] at hraw; simp [Except.toOption] at hraw
    | ok p =>
      obtain ⟨w, f2⟩ := p
      rw [hfe] at hraw
      simp only [Except.toOption, Option.map_some] at hraw
      injection hraw with hw
      have hw2 : w = v := hw
      subst hw2
      refine ⟨rfl, ?_⟩
      show (if f.lastclust < w ∧ w < (0x0ffffff7 &&& FATFS_16_MASK) then 0 else w) = 0
      rw [if_pos ⟨hlo, hhi⟩]
  · cases hfe : fat32_entry f d clust with
    | error e => rw [hfe] at hraw; simp [Except.toOption] at hraw
    | ok p =>
      obtain ⟨w, f2⟩ := p
      rw [hfe] at hraw
      simp only [Except.toOption, Option.map_some] at hraw
      injection hraw with hw
      have hw2 : w = v := hw
      subst hw2
      refine ⟨rfl, ?_⟩
      show (if f.lastclust < w ∧ w < (0x0ffffff7 &&& FATFS_32_MASK) then 0 else w) = 0
      rw [if_pos ⟨hlo, hhi⟩]

/-- Disk whose FAT16 entry for cluster 2 decodes to 5 (out of range for
`wFat`, whose lastclust is 3, and below 0xfff7): scenario S3-style. -/
def wDisk5 : Disk := ⟨2048, fun off => if off = 516 then 5 else 0⟩

theorem fat_range_clamp_witness :
    (fatfs_getFAT wFat wDisk5 2 99).1 = none ∧
    (fatfs_getFAT wFat wDisk5 2 99).2.2 = 0 :=
  fat_range_clamp wFat wDisk5 2 5 99 (by decide)
    (fun h => absurd h (by decide)) (Or.inr (Or.inl rfl))
    (by decide) (by decide) (by decide)

/-- Claim C3 (amended): for a cluster beyond `lastclust`, `fatfs_getFAT`
silently accepts exactly `lastclust + 1` when a non-clustered tail region
exists, returning success with `*value` left unchanged (the C never writes
through the pointer on this path); every other out-of-range cluster fails
with ARG, also leaving state and `*value` unchanged. -/
theorem fat_getFAT_out_of_range (f : FATFS_INFO) (d : Disk) (clust value0 : Nat)
    (hgt : clust > f.lastclust) :
    fatfs_getFAT f d clust value0 =
      if clust = f.lastclust + 1 ∧
          f.firstclustsect + f.csize * f.clustcnt - 1 ≠ f.last_block then
        (none, f, value0)
      else (some .arg, f, value0) := by
  unfold fatfs_getFAT
  rw [if_pos hgt]

/-- FAT16 instance with a non-clustered tail: `firstclustsect + csize *
clustcnt - 1 = 11 ≠ 20 = last_block`. -/
def wFatTail : FATFS_INFO :=
  { ftype := .fat16, endian := .little, ssize := 512, ssize_sh := 9,
    csize := 1, numfat := 1, firstfatsect := 1, firstdatasect := 10,
    firstclustsect := 10, clustcnt := 2, lastclust := 3,
    first_block := 0, last_block := 20, block_size := 512,
    cacheN := 4, cacheS := 2,
    cache := ⟨fun _ => 0, fun _ => 0, fun _ _ => 0⟩ }

theorem fat_getFAT_out_of_range_witness :
    fatfs_getFAT wFatTail wDisk 4 7 =
      if 4 = wFatTail.lastclust + 1 ∧
          wFatTail.firstclustsect + wFatTail.csize * wFatTail.clustcnt - 1
            ≠ wFatTail.last_block then
        (none, wFatTail, 7)
      else (some .arg, wFatTail, 7) :=
  fat_getFAT_out_of_range wFatTail wDisk 4 7 (by decide)

/-- Counterexample to claim C3 as stated: on `wFatTail` the request for
cluster `lastclust + 1 = 4` is silently accepted (return code success) but
the successor value handed back is NOT 0 — it is whatever the caller's
`*value` held before (7 here), because fatfs.c:163-170 returns without
writing through `value`. -/
theorem fat_getFAT_tail_value_cex :
    (fatfs_getFAT wFatTail wDisk 4 7).1 = none ∧
    (fatfs_getFAT wFatTail wDisk 4 7).2.2 ≠ 0 := by
  decide

/-- Claim C10: the ARG failure for an out-of-range cluster (beyond the
accepted tail case) happens before the cache is touched: the returned state
is the argument state, byte for byte, and `*value` is unchanged. -/
theorem fat_getFAT_arg_atomic (f : FATFS_INFO) (d : Disk) (clust value0 : Nat)
    (hgt : clust > f.lastclust)
    (hnt : ¬(clust = f.lastclust + 1 ∧
        f.firstclustsect + f.csize * f.clustcnt - 1 ≠ f.last_block)) :
    fatfs_getFAT f d clust value0 = (some .arg, f, value0) := by
  unfold fatfs_getFAT
  rw [if_pos hgt, if_neg hnt]

theorem fat_getFAT_arg_atomic_witness :
    fatfs_getFAT wFatTail wDisk 9 7 = (some .arg, wFatTail, 7) :=
  fat_getFAT_arg_atomic wFatTail wDisk 9 7 (by decide) (by decide)

/-! ## `fatfs_open` geometry (claim C9) -/

/-- One row of the hard-coded XTAF geometry switch of `fatfs_open`
(fatfs.c:1400-1454). -/
structure XtafGeom where
  rootsect : Nat
  sectperfat : Nat
  firstclustsect : Nat
  clustcnt : Nat
  lastclust : Nat
deriving DecidableEq

/-- The `img_info->size` / `offset` switch of fatfs.c:1400-1462 (the
`firstclustsect` column is dead: fatfs.c:1503-1504 overwrite it). -/
def xtafGeomTable (imgSize offset : Nat) : Option XtafGeom :=
  if imgSize = 146413464 ∨ imgSize = 4712496640 ∨ imgSize = 4846714880 then
    some ⟨1176, 1160, 1240, 147910, 147891⟩
  else if imgSize = 2147483648 ∨ offset = 0x80000 then
    some ⟨528, 512, 592, 65536, 65527⟩
  else if imgSize = 2348810240 ∨ offset = 0x80080000 then
    some ⟨2248, 2240, 2264, 65536, 65527⟩
  else if imgSize = 216203264 ∨ offset = 0x10C080000 then
    some ⟨64, 56, 96, 13196, 13194⟩
  else if imgSize = 134217728 ∨ offset = 0x118eb0000 then
    some ⟨48, 40, 80, 8192, 8190⟩
  else if imgSize = 268435456 ∨ offset = 0x120eb0000 then
    some ⟨80, 64, 112, 16384, 16381⟩
  else if imgSize = 244943674880 ∨ offset = 0x130eb0000 then
    some ⟨116808, 116800, 116840, 14950175, 14946525⟩
  else none

/-- The flavor `fatfs_open` ends up with: the DETECT rule of fatfs.c:1529-1539
(two-way split FAT16/FAT32), otherwise the requested flavor. -/
def xtafFlavor (ftype : TskFsType) (g : XtafGeom) : TskFsType :=
  if ftype = TskFsType.fatDetect then
    (if g.clustcnt < 0xfff4 then TskFsType.fat16 else TskFsType.fat32)
  else ftype

/-- The `FATFS_INFO` a successful `fatfs_open` builds (fatfs.c:1464-1693):
`firstfatsect = XTAF_FIRST_FAT_SECT = 8`, `firstdatasect = rootsect`,
`firstclustsect = firstdatasect + 32 + 0`, zeroed cache, block range
`[0, sectors - 1]`. -/
def xtafFatInfo (t : TskFsType) (g : XtafGeom) (csize numfat sectors : Nat)
    (en : Endian) (N S : Nat) : FATFS_INFO :=
  { ftype := t, endian := en, ssize := 512, ssize_sh := 9,
    csize := csize, numfat := numfat, firstfatsect := 8,
    firstdatasect := g.rootsect,
    firstclustsect := g.rootsect + 32 + 0,
    clustcnt := g.clustcnt, lastclust := g.lastclust,
    first_block := 0, last_block := sectors - 1, block_size := 512,
    cacheN := N, cacheS := S,
    cache := ⟨fun _ => 0, fun _ => 0, fun _ _ => 0⟩ }

/-- The checks of `fatfs_open` after the XTAF geometry switch
(fatfs.c:1464-1601): sectors-per-FAT and first-FAT-sector sanity, the FAT12
cluster-count rejection, and the mask assignment (whose fall-through arm is
an ARG error). -/
def fatfs_open_finish (ftype : TskFsType) (g : XtafGeom)
    (csize numfat sectors : Nat) (en : Endian) (N S : Nat) :
    Except TskErr FATFS_INFO :=
  if g.sectperfat = 0 then .error .magic
  else if (8 : Nat) = 0 ∨ 8 > sectors then .error .walkRng
  else if ftype ≠ TskFsType.fatDetect ∧ ftype = TskFsType.fat12 ∧
      4085 ≤ g.clustcnt then .error .magic
  else if xtafFlavor ftype g = TskFsType.fat12 ∨
      xtafFlavor ftype g = TskFsType.fat16 ∨
      xtafFlavor ftype g = TskFsType.fat32 then
    .ok (xtafFatInfo (xtafFlavor ftype g) g csize numfat sectors en N S)
  else .error .arg

/-- The geometry part of `fatfs_open` (fatfs.c:1220-1693), after a boot
sector whose magic validated with endianness `en`: flavor check, the `uint8_t`
casts and range checks of `csize`/`numfat` (the raw 32-bit boot fields are
passed in decoded — the `fatfs_sb` layout lives in `tsk_fatfs.h`, outside the
sources), the XTAF table switch, and the post-table checks; the cache is
sized `N × S`.  The "Partition was not valid" arm resets the error state
without setting an errno (`TskErr.unset`). -/
def fatfs_open_geom (imgSize offset : Nat) (ftype : TskFsType)
    (csize32 numfat32 : Nat) (en : Endian) (N S : Nat) :
    Except TskErr FATFS_INFO :=
  if ¬(ftype = TskFsType.fat12 ∨ ftype = TskFsType.fat16 ∨
       ftype = TskFsType.fat32 ∨ ftype = TskFsType.fatDetect) then
    .error .arg
  else if ¬(csize32 % 256 = 0x01 ∨ csize32 % 256 = 0x02 ∨
       csize32 % 256 = 0x04 ∨ csize32 % 256 = 0x08 ∨ csize32 % 256 = 0x10 ∨
       csize32 % 256 = 0x20 ∨ csize32 % 256 = 0x40 ∨ csize32 % 256 = 0x80) then
    .error .magic
  else if numfat32 % 256 = 0 ∨ numfat32 % 256 > 8 then .error .magic
  else
    match xtafGeomTable imgSize offset with
    | none => .error .unset
    | some g =>
      fatfs_open_finish ftype g (csize32 % 256) (numfat32 % 256)
        (imgSize / 512) en N S

/-- Every partition the XTAF table recognizes has ≥ 4085 clusters. -/
lemma xtafGeomTable_clustcnt (imgSize offset : Nat) (g : XtafGeom)
    (h : xtafGeomTable imgSize offset = some g) : 4085 ≤ g.clustcnt := by
  unfold xtafGeomTable at h
  split_ifs at h <;> (injection h with h2; rw [← h2]; decide)

lemma fatfs_open_finish_no_fat12 (ftype : TskFsType) (g : XtafGeom)
    (csize numfat sectors : Nat) (en : Endian) (N S : Nat) (fat : FATFS_INFO)
    (hcc : 4085 ≤ g.clustcnt)
    (h : fatfs_open_finish ftype g csize numfat sectors en N S = .ok fat) :
    fat.ftype ≠ TskFsType.fat12 ∧ ftype ≠ TskFsType.fat12 := by
  unfold fatfs_open_finish at h
  split_ifs at h with h1 h2 h3 h4
  injection h with h5
  have hty : fat.ftype = xtafFlavor ftype g := by rw [← h5]; rfl
  by_cases hdet : ftype = TskFsType.fatDetect
  · constructor
    · rw [hty]
      unfold xtafFlavor
      rw [if_pos hdet]
      by_cases hcl : g.clustcnt < 0xfff4
      · rw [if_pos hcl]; decide
      · rw [if_neg hcl]; decide
    · rw [hdet]; decide
  · have hne : ftype ≠ TskFsType.fat12 := by
      intro he
      exact h3 ⟨hdet, he, hcc⟩
    refine ⟨?_, hne⟩
    rw [hty]
    unfold xtafFlavor
    rw [if_neg hdet]
    exact hne

/-- A successful open never produces a FAT12-flavored instance, and cannot
have been asked for FAT12. -/
lemma fatfs_open_geom_no_fat12 (imgSize offset : Nat) (ftype : TskFsType)
    (csize32 numfat32 : Nat) (en : Endian) (N S : Nat) (fat : FATFS_INFO)
    (h : fatfs_open_geom imgSize offset ftype csize32 numfat32 en N S
      = .ok fat) :
    fat.ftype ≠ TskFsType.fat12 ∧ ftype ≠ TskFsType.fat12 := by
  unfold fatfs_open_geom at h
  split_ifs at h with h1 h2 h3
  cases htab : xtafGeomTable imgSize offset with
  | none =>
    rw [htab] at h
    exact Except.noConfusion h
  | some g =>
    rw [htab] at h
    have h4 : fatfs_open_finish ftype g (csize32 % 256) (numfat32 % 256)
        (imgSize / 512) en N S = .ok fat := h
    exact fatfs_open_finish_no_fat12 ftype g _ _ _ en N S fat
      (xtafGeomTable_clustcnt imgSize offset g htab) h4

/-- Claim C9: opening with requested flavor FAT12 always fails (every XTAF
table row has clustcnt ≥ 4085, so fatfs.c:1543-1553 rejects it), and no
successful open of any flavor yields a FATFS_INFO on which the FAT12
"Cluster too large" ARG branch of `fatfs_getFAT` (triggered by
`clust & 0xf000` after passing `clust ≤ lastclust`) could fire — no
FAT12-flavored instance exists at all. -/
theorem fat12_toolarge_branch_unreachable :
    (∀ imgSize offset csize32 numfat32 en N S,
      (fatfs_open_geom imgSize offset TskFsType.fat12 csize32 numfat32
        en N S).toOption = none)
    ∧ (∀ imgSize offset ftype csize32 numfat32 en N S,
        (fatfs_open_geom imgSize offset ftype csize32 numfat32
          en N S).toOption.all
          (fun g => decide (¬(g.ftype = TskFsType.fat12 ∧
            ∃ clust, clust ≤ g.lastclust ∧ clust &&& 0xf000 ≠ 0))) = true) := by
  constructor
  · intro imgSize offset csize32 numfat32 en N S
    cases hok : fatfs_open_geom imgSize offset TskFsType.fat12 csize32
        numfat32 en N S with
    | error e => rfl
    | ok fat =>
      exact absurd rfl
        (fatfs_open_geom_no_fat12 imgSize offset _ csize32 numfat32
          en N S fat hok).2
  · intro imgSize offset ftype csize32 numfat32 en N S
    cases hok : fatfs_open_geom imgSize offset ftype csize32 numfat32
        en N S with
    | error e => rfl
    | ok fat =>
      have hne := (fatfs_open_geom_no_fat12 imgSize offset ftype csize32
        numfat32 en N S fat hok).1
      simp only [Except.toOption, Option.all_some, decide_eq_true_eq]
      intro hcon
      exact hne hcon.1

/-! ## FAT allocation queries and block walk (claim C4) -/

/-- Modelled from the spec (tsk_fatfs.h macro; glossary: cluster indices
start at 2 at `firstclustsect`, `csize` sectors each). -/
def FATFS_SECT_2_CLUST (f : FATFS_INFO) (sect : Nat) : Nat :=
  2 + (sect - f.firstclustsect) / f.csize

/-- Modelled from the spec (tsk_fatfs.h macro, inverse of the above). -/
def FATFS_CLUST_2_SECT (f : FATFS_INFO) (clust : Nat) : Nat :=
  f.firstclustsect + (clust - 2) * f.csize

/-- `fatfs_is_clustalloc` (fatfs.c:311-321): allocated iff the successor is
not `FATFS_UNALLOC = 0`.  The C leaves `content` uninitialized; `fatfs_getFAT`
writes it on every path taken for clusters ≤ lastclust, so the model passes
0. -/
def fatfs_is_clustalloc (f : FATFS_INFO) (d : Disk) (clust : Nat) :
    Except TskErr (Bool × FATFS_INFO) :=
  match fatfs_getFAT f d clust 0 with
  | (some e, _, _) => .error e
  | (none, f2, v) => .ok (decide (v ≠ 0), f2)

/-- `fatfs_is_sectalloc` (fatfs.c:332-348). -/
def fatfs_is_sectalloc (f : FATFS_INFO) (d : Disk) (sect : Nat) :
    Except TskErr (Bool × FATFS_INFO) :=
  if sect < f.firstclustsect then .ok (true, f)
  else if sect ≤ f.last_block ∧
      f.firstclustsect + f.csize * f.clustcnt ≤ sect then .ok (false, f)
  else fatfs_is_clustalloc f d (FATFS_SECT_2_CLUST f sect)

/-- `fatfs_block_getflags` (fatfs.c:353-381), as an observer (the C mutates
the cache through `fatfs_is_sectalloc`; the flag value is what the claims
consult). -/
def fatfs_block_getflags (f : FATFS_INFO) (d : Disk) (addr : Nat) : Nat :=
  if addr < f.firstdatasect then FLAG_META ||| FLAG_ALLOC
  else if addr < f.firstclustsect then FLAG_CONT ||| FLAG_ALLOC
  else
    match fatfs_is_sectalloc f d addr with
    | .error _ => FLAG_CONT
    | .ok (b, _) => FLAG_CONT ||| (if b then FLAG_ALLOC else FLAG_UNALLOC)

/-- Outcome of the pre-data inner loop: early return with the C return code,
or fall-through at the given next address. -/
inductive PreOut where
  | done (r : Nat)
  | next (a : Nat)
deriving DecidableEq

/-- Outcome of the data-area inner loop. -/
inductive DataOut where
  | done (r : Nat)
  | next
deriving DecidableEq

/-- The inner `for (i = 0; i < 8 && addr <= a_end_blk && addr <
firstclustsect; i++, addr++)` of the pre-data phase (fatfs.c:495-534), as
recursion on the remaining loop count `c` (starting at 8) with `addr = base +
i`.  Delivered blocks are collected; STOP/ERROR end the walk with return code
0/1. -/
def walkPreInner (f : FATFS_INFO) (e : Nat) (fl : WalkFlags) (cb : WalkCb)
    (buf : Nat → Nat) (base : Nat) : Nat → Nat → List WEntry × PreOut
  | 0, i => ([], .next (base + i))
  | c + 1, i =>
    if base + i ≤ e ∧ base + i < f.firstclustsect then
      let mfl := FLAG_ALLOC |||
        (if base + i < f.firstdatasect then FLAG_META else FLAG_CONT)
      if mfl &&& FLAG_META ≠ 0 ∧ ¬fl.meta = true then
        walkPreInner f e fl cb buf base c (i + 1)
      else if mfl &&& FLAG_CONT ≠ 0 ∧ ¬fl.cont = true then
        walkPreInner f e fl cb buf base c (i + 1)
      else
        let data := (List.range f.block_size).map
          (fun j => buf (i * f.block_size + j))
        match cb (base + i) (mfl ||| FLAG_RAW) data with
        | .stop => ([(base + i, mfl ||| FLAG_RAW, data)], .done 0)
        | .error => ([(base + i, mfl ||| FLAG_RAW, data)], .done 1)
        | .cont =>
          let rest := walkPreInner f e fl cb buf base c (i + 1)
          ((base + i, mfl ||| FLAG_RAW, data) :: rest.1, rest.2)
    else ([], .next (base + i))

lemma walkPreInner_next_ge (f : FATFS_INFO) (e : Nat) (fl : WalkFlags)
    (cb : WalkCb) (buf : Nat → Nat) (base : Nat) :
    ∀ c i tr a, walkPreInner f e fl cb buf base c i = (tr, .next a) →
      base + i ≤ a := by
  intro c
  induction c with
  | zero =>
    intro i tr a h
    simp only [walkPreInner] at h
    injection h with h1 h2
    injection h2 with h3
    omega
  | succ n ih =>
    intro i tr a h
    simp only [walkPreInner] at h
    split at h
    · split at h <;> split at h <;> (try split at h) <;> (try split at h)
      all_goals try (have hx := ih (i + 1) _ _ h; omega)
      all_goals try (injection h with h1 h2; injection h2)
      all_goals
        (injection h with h1 h2
         obtain ⟨tr2, o2, hro⟩ : ∃ x y,
             walkPreInner f e fl cb buf base n (i + 1) = (x, y) := ⟨_, _, rfl⟩
         rw [hro] at h2
         have h2x : o2 = PreOut.next a := h2
         subst h2x
         have hx := ih (i + 1) _ _ hro
         omega)
    · injection h with h1 h2
      injection h2 with h3
      omega

lemma walkPreInner_next_progress (f : FATFS_INFO) (e : Nat) (fl : WalkFlags)
    (cb : WalkCb) (buf : Nat → Nat) (base : Nat) (n i : Nat) (tr : List WEntry)
    (a : Nat) (hg : base + i ≤ e ∧ base + i < f.firstclustsect)
    (h : walkPreInner f e fl cb buf base (n + 1) i = (tr, .next a)) :
    base + i + 1 ≤ a := by
  simp only [walkPreInner] at h
  rw [if_pos hg] at h
  split at h <;> (try split at h) <;> (try split at h) <;> (try split at h)
  all_goals try (have hx := walkPreInner_next_ge f e fl cb buf base n (i + 1) _ _ h; omega)
  all_goals try (injection h with h1 h2; injection h2)
  all_goals
    (injection h with h1 h2
     obtain ⟨tr2, o2, hro⟩ : ∃ x y,
         walkPreInner f e fl cb buf base n (i + 1) = (x, y) := ⟨_, _, rfl⟩
     rw [hro] at h2
     have h2x : o2 = PreOut.next a := h2
     subst h2x
     have hx := walkPreInner_next_ge f e fl cb buf base n (i + 1) _ _ hro
     omega)

/-- The outer pre-data loop `while (addr < fatfs->firstclustsect && addr <=
a_end_blk)` (fatfs.c:482-541): read 8 sectors, run the burst, and either
return early or continue at the fall-through address. A failed read returns
1 (the C reports the read error). -/
def walkPreOuter (f : FATFS_INFO) (d : Disk) (e : Nat) (fl : WalkFlags)
    (cb : WalkCb) (addr : Nat) : List WEntry × PreOut :=
  if hg : addr < f.firstclustsect ∧ addr ≤ e then
    match tsk_fs_read d (addr * f.block_size) (f.block_size * 8) with
    | none => ([], .done 1)
    | some buf =>
      match hin : walkPreInner f e fl cb buf addr 8 0 with
      | (tr, .done r) => (tr, .done r)
      | (tr, .next addr2) =>
        let rest := walkPreOuter f d e fl cb addr2
        (tr ++ rest.1, rest.2)
  else ([], .next addr)
termination_by e + 1 - addr
decreasing_by
  have hx := walkPreInner_next_progress f e fl cb buf addr 7 0 _ _
    ⟨by omega, by omega⟩ hin
  omega

/-- The inner `for (i = 0; i < read_size; i++, addr++)` of the data phase
(fatfs.c:601-637): skip sectors below the start, break above the end,
otherwise deliver with the cluster's flags. -/
def walkDataInner (f : FATFS_INFO) (s e : Nat) (mfl : Nat) (cb : WalkCb)
    (buf : Nat → Nat) (base : Nat) : Nat → Nat → List WEntry × DataOut
  | 0, _ => ([], .next)
  | c + 1, i =>
    if base + i < s then walkDataInner f s e mfl cb buf base c (i + 1)
    else if e < base + i then ([], .next)
    else
      let data := (List.range f.block_size).map
        (fun j => buf (i * f.block_size + j))
      match cb (base + i) (mfl ||| FLAG_RAW) data with
      | .stop => ([(base + i, mfl ||| FLAG_RAW, data)], .done 0)
      | .error => ([(base + i, mfl ||| FLAG_RAW, data)], .done 1)
      | .cont =>
        let rest := walkDataInner f s e mfl cb buf base c (i + 1)
        ((base + i, mfl ||| FLAG_RAW, data) :: rest.1, rest.2)

/-- The outer data-phase loop `for (addr = ...; addr <= a_end_blk; addr +=
fatfs->csize)` (fatfs.c:561-651): per cluster, query allocation, filter on
the callback flags, read `read_size` sectors (clipped at `a_end_blk`), and
run the inner loop.  The `0 < csize` guard is a termination artifact: the C
loop does not advance when csize = 0 (csize is checked nonzero at open). -/
def walkDataOuter (d : Disk) (s e : Nat) (fl : WalkFlags) (cb : WalkCb)
    (f : FATFS_INFO) (addr : Nat) : Nat × List WEntry :=
  if hg : addr ≤ e ∧ 0 < f.csize then
    match fatfs_is_sectalloc f d addr with
    | .error _ => (1, [])
    | .ok (alloc, f2) =>
      let mfl := (if alloc then FLAG_ALLOC else FLAG_UNALLOC) |||
        FLAG_CONT
      if mfl &&& FLAG_CONT ≠ 0 ∧ ¬fl.cont = true then
        walkDataOuter d s e fl cb f2 (addr + f.csize)
      else if mfl &&& FLAG_ALLOC ≠ 0 ∧ ¬fl.alloc = true then
        walkDataOuter d s e fl cb f2 (addr + f.csize)
      else if mfl &&& FLAG_UNALLOC ≠ 0 ∧ ¬fl.unalloc = true then
        walkDataOuter d s e fl cb f2 (addr + f.csize)
      else
        let read_size := if e - addr + 1 < f.csize then e - addr + 1 else f.csize
        match tsk_fs_read d (addr * f.block_size) (f.block_size * read_size) with
        | none => (1, [])
        | some buf =>
          match walkDataInner f s e mfl cb buf addr read_size 0 with
          | (tr, .done r) => (r, tr)
          | (tr, .next) =>
            let rest := walkDataOuter d s e fl cb f2 (addr + f.csize)
            (rest.1, tr ++ rest.2)
  else (0, [])
termination_by e + 1 - addr
decreasing_by all_goals omega

/-- `fatfs_block_walk` (fatfs.c:398-653): argument checks, sanitized flags,
pre-data phase when the range starts before `firstclustsect` and allocated
blocks are wanted (with the early `if (addr >= a_end_blk) return 0` at
fatfs.c:539-541), then the cluster-aligned data phase. -/
def fatfs_block_walk (f : FATFS_INFO) (d : Disk) (s e : Nat)
    (aflags : WalkFlags) (cb : WalkCb) : Nat × List WEntry :=
  if s < f.first_block ∨ f.last_block < s then (1, [])
  else if e < f.first_block ∨ f.last_block < e then (1, [])
  else
    let fl := walkDefault aflags
    if s < f.firstclustsect ∧ fl.alloc = true then
      match walkPreOuter f d e fl cb s with
      | (tr, .done r) => (r, tr)
      | (tr, .next addr1) =>
        if e ≤ addr1 then (0, tr)
        else
          let addr2 := FATFS_CLUST_2_SECT f (FATFS_SECT_2_CLUST f addr1)
          let rest := walkDataOuter d s e fl cb f addr2
          (rest.1, tr ++ rest.2)
    else
      let addr0 := if s < f.firstclustsect then f.firstclustsect else s
      let addr2 := FATFS_CLUST_2_SECT f (FATFS_SECT_2_CLUST f addr0)
      walkDataOuter d s e fl cb f addr2

/-- Sector contents as delivered to the callback: the `block_size` bytes at
byte offset `a * block_size`. -/
def sectorData (f : FATFS_INFO) (d : Disk) (a : Nat) : List Nat :=
  (List.range f.block_size).map (fun j => d.read8 (a * f.block_size + j))

/-! ### Pure (cache-free) reading of the allocation state

The walk claims relate delivered blocks to `fatfs_block_getflags`; both
sides go through the FAT cache, whose state differs between the two calls.
The bridge is a pure reading of the FAT directly from the disk, shown below
to agree with the cached code whenever the cache is coherent with the
disk. -/

/-- Byte offset of cluster `clust`'s entry inside the FAT, per flavor
(fatfs.c:186, 253, 277 drop the sector part; this is the undivided form). -/
def fatEntryOff (f : FATFS_INFO) (clust : Nat) : Nat :=
  match f.ftype with
  | .fat12 => clust + (clust >>> 1)
  | .fat16 => clust <<< 1
  | .fat32 => clust <<< 2
  | _ => 0

/-- The masked FAT entry for `clust`, read directly from the disk bytes at
`firstfatsect * ssize + fatEntryOff`. -/
def pureFatValue (f : FATFS_INFO) (d : Disk) (clust : Nat) : Nat :=
  match f.ftype with
  | .fat12 =>
    let t := tsk_getu16 f.endian
      (fun j => d.read8 (f.firstfatsect * f.ssize + (clust + (clust >>> 1)) + j))
    (if clust &&& 1 ≠ 0 then t >>> 4 else t) &&& FATFS_12_MASK
  | .fat16 =>
    tsk_getu16 f.endian
      (fun j => d.read8 (f.firstfatsect * f.ssize + (clust <<< 1) + j)) &&&
      FATFS_16_MASK
  | .fat32 =>
    tsk_getu32 f.endian
      (fun j => d.read8 (f.firstfatsect * f.ssize + (clust <<< 2) + j)) &&&
      FATFS_32_MASK
  | _ => 0

/-- `pureFatValue` after the sanity clamp of fatfs.c:165-177. -/
def pureFatClamped (f : FATFS_INFO) (d : Disk) (clust : Nat) : Nat :=
  let v := pureFatValue f d clust
  if f.lastclust < v ∧ v < (0x0ffffff7 &&& maskOfType f.ftype) then 0 else v

/-- Pure reading of `fatfs_is_sectalloc`. -/
def pureSectAlloc (f : FATFS_INFO) (d : Disk) (sect : Nat) : Bool :=
  if sect < f.firstclustsect then true
  else if sect ≤ f.last_block ∧
      f.firstclustsect + f.csize * f.clustcnt ≤ sect then false
  else decide (pureFatClamped f d (FATFS_SECT_2_CLUST f sect) ≠ 0)

/-- Pure reading of `fatfs_block_getflags`. -/
def classifyPure (f : FATFS_INFO) (d : Disk) (a : Nat) : Nat :=
  if a < f.firstdatasect then FLAG_META ||| FLAG_ALLOC
  else if a < f.firstclustsect then FLAG_CONT ||| FLAG_ALLOC
  else FLAG_CONT ||| (if pureSectAlloc f d a then FLAG_ALLOC else FLAG_UNALLOC)

/-- Every used cache slot's buffer holds the disk bytes of its window. -/
def CacheCoherent (f : FATFS_INFO) (d : Disk) : Prop :=
  ∀ i, i < f.cacheN → 0 < f.cache.ttl i →
    ∀ j, j < FAT_CACHE_B f →
      f.cache.buf i j = d.read8 (f.cache.addr i * f.ssize + j)

/-- Geometry well-formedness guaranteed by `fatfs_open` for mounted volumes:
block = sector size, a power of two of exponent ≥ 2, a cache window of at
least 2 sectors, nonzero cluster size, `lastclust = clustcnt + 1`
(fatfs.c:1602), the content area behind the meta area, a real FAT flavor,
and (FAT12) in-range clusters passing the 0xf000 screen. -/
def FatGeomWF (f : FATFS_INFO) : Prop :=
  f.block_size = f.ssize ∧ f.ssize = 2 ^ f.ssize_sh ∧ 2 ≤ f.ssize_sh ∧
  2 ≤ f.cacheS ∧ 0 < f.csize ∧ f.lastclust = f.clustcnt + 1 ∧
  f.firstdatasect ≤ f.firstclustsect ∧
  (f.ftype = .fat12 ∨ f.ftype = .fat16 ∨ f.ftype = .fat32) ∧
  (f.ftype = .fat12 → ∀ c, c ≤ f.lastclust → c &&& 0xf000 = 0)

/-- The disk covers the FAT windows needed for every in-range cluster. -/
def FatReadOk (f : FATFS_INFO) (d : Disk) : Prop :=
  ∀ c, c ≤ f.lastclust →
    (f.firstfatsect + (fatEntryOff f c >>> f.ssize_sh)) * f.ssize +
      FAT_CACHE_B f ≤ d.size

lemma coherent_of_unused (f : FATFS_INFO) (d : Disk)
    (h : ∀ i, f.cache.ttl i = 0) : CacheCoherent f d := by
  intro i _ hpos
  rw [h i] at hpos
  exact absurd hpos (by omega)

lemma getFATCacheIdx_ok (f : FATFS_INFO) (d : Disk) (sect : Nat)
    (hbs : f.block_size = f.ssize) (hS : 1 ≤ f.cacheS)
    (hcoh : CacheCoherent f d)
    (hsz : sect * f.ssize + FAT_CACHE_B f ≤ d.size) :
    ∃ idx c2, getFATCacheIdx f d sect = .ok (idx, c2) ∧
      c2.addr idx ≤ sect ∧ sect < c2.addr idx + f.cacheS ∧
      (∀ j, j < FAT_CACHE_B f →
        c2.buf idx j = d.read8 (c2.addr idx * f.ssize + j)) ∧
      CacheCoherent { f with cache := c2 } d := by
  unfold getFATCacheIdx
  cases hh : cacheHitIdx f sect with
  | some i =>
    obtain ⟨hiN, hpos, hlo, hhi⟩ := cacheHitIdx_spec f sect i hh
    refine ⟨i, cachePromote f i, rfl, hlo, hhi, ?_, ?_⟩
    · intro j hj
      exact hcoh i hiN hpos j hj
    · intro a haN hapos j hj
      have haN2 : a < f.cacheN := haN
      have hapos2 : 0 < (cachePromote f i).ttl a := hapos
      have hold : 0 < f.cache.ttl a := by
        by_cases hai : a = i
        · subst hai; exact hpos
        · simp only [cachePromote] at hapos2
          rw [if_neg hai] at hapos2
          by_cases hc : a < f.cacheN ∧ 0 < f.cache.ttl a ∧
              f.cache.ttl a < f.cache.ttl i
          · exact hc.2.1
          · rw [if_neg hc] at hapos2; exact hapos2
      exact hcoh a haN2 hold j hj
  | none =>
    have hrd : tsk_fs_read d (sect * f.block_size) (FAT_CACHE_B f) =
        some (fun j => d.read8 (sect * f.block_size + j)) := by
      unfold tsk_fs_read
      rw [if_pos (by rw [hbs]; exact hsz)]
    rw [hrd]
    refine ⟨cacheVictim f, _, rfl, ?_, ?_, ?_, ?_⟩
    · simp [cacheMiss]
    · simp only [cacheMiss, Function.update_same]
      omega
    · intro j hj
      simp only [cacheMiss, Function.update_same]
      rw [hbs]
    · intro a haN hapos j hj
      have haN2 : a < f.cacheN := haN
      have hapos2 : 0 < (cacheMiss f (cacheVictim f) sect
        (fun j => d.read8 (sect * f.block_size + j))).ttl a := hapos
      have hj2 : j < FAT_CACHE_B f := hj
      show (cacheMiss f (cacheVictim f) sect
          (fun j => d.read8 (sect * f.block_size + j))).buf a j =
        d.read8 ((cacheMiss f (cacheVictim f) sect
          (fun j => d.read8 (sect * f.block_size + j))).addr a * f.ssize + j)
      by_cases hac : a = cacheVictim f
      · subst hac
        simp only [cacheMiss, Function.update_same]
        rw [hbs]
      · simp only [cacheMiss, Function.update_noteq hac]
        have hold : 0 < f.cache.ttl a := by
          simp only [cacheMiss] at hapos2
          rw [if_neg hac] at hapos2
          by_cases hc : a < f.cacheN ∧ 0 < f.cache.ttl a ∧
              f.cache.ttl a < (if f.cache.ttl (cacheVictim f) = 0
                then f.cacheN + 1 else f.cache.ttl (cacheVictim f))
          · exact hc.2.1
          · rw [if_neg hc] at hapos2; exact hapos2
        exact hcoh a haN2 hold j hj2

lemma fat_offs_eq (ssize ssh base ffs off0 j : Nat)
    (hss : ssize = 2 ^ ssh)
    (hbase : base ≤ ffs + (off0 >>> ssh)) :
    base * ssize + ((((ffs + (off0 >>> ssh)) - base) <<< ssh) +
      off0 % ssize + j) = ffs * ssize + off0 + j := by
  subst hss
  rw [Nat.shiftLeft_eq, Nat.shiftRight_eq_div_pow] at *
  have h1 : (ffs + off0 / 2 ^ ssh - base) * 2 ^ ssh + base * 2 ^ ssh =
      (ffs + off0 / 2 ^ ssh) * 2 ^ ssh := by
    rw [← Nat.add_mul]
    congr 1
    omega
  have h2 : (ffs + off0 / 2 ^ ssh) * 2 ^ ssh =
      ffs * 2 ^ ssh + off0 / 2 ^ ssh * 2 ^ ssh := Nat.add_mul _ _ _
  have h3 := Nat.div_add_mod off0 (2 ^ ssh)
  have h3b : off0 / 2 ^ ssh * 2 ^ ssh = 2 ^ ssh * (off0 / 2 ^ ssh) :=
    Nat.mul_comm _ _
  omega

lemma fat_offs_lt (ssize ssh S base sect off0 w : Nat)
    (hss : ssize = 2 ^ ssh) (hw : off0 % ssize + w ≤ ssize)
    (hbase : base ≤ sect) (hr : sect < base + S) :
    ((sect - base) <<< ssh) + off0 % ssize + w ≤ S * ssize := by
  subst hss
  rw [Nat.shiftLeft_eq]
  have h1 : sect - base ≤ S - 1 := by omega
  have h2 : (sect - base) * 2 ^ ssh ≤ (S - 1) * 2 ^ ssh :=
    Nat.mul_le_mul_right _ h1
  have h3 : (S - 1) * 2 ^ ssh = S * 2 ^ ssh - 2 ^ ssh := by
    rw [Nat.sub_one_mul]
  have h4 : 2 ^ ssh ≤ S * 2 ^ ssh :=
    Nat.le_mul_of_pos_left _ (by omega)
  omega

lemma shl1_mod_le (c ssh : Nat) (h : 1 ≤ ssh) :
    (c <<< 1) % 2 ^ ssh + 2 ≤ 2 ^ ssh := by
  rw [Nat.shiftLeft_eq]
  norm_num
  have h2 : 2 ^ ssh = 2 ^ (ssh - 1) * 2 := by
    rw [← pow_succ]
    congr 1
    omega
  rw [h2, Nat.mul_mod_mul_right]
  have h3 : c % 2 ^ (ssh - 1) < 2 ^ (ssh - 1) :=
    Nat.mod_lt _ (pow_pos (by norm_num) _)
  omega

lemma shl2_mod_le (c ssh : Nat) (h : 2 ≤ ssh) :
    (c <<< 2) % 2 ^ ssh + 4 ≤ 2 ^ ssh := by
  rw [Nat.shiftLeft_eq]
  norm_num
  have h2 : 2 ^ ssh = 2 ^ (ssh - 2) * 4 := by
    have h5 : (4 : Nat) = 2 ^ 2 := by norm_num
    rw [h5, ← pow_add]
    congr 1
    omega
  rw [h2, Nat.mul_mod_mul_right]
  have h3 : c % 2 ^ (ssh - 2) < 2 ^ (ssh - 2) :=
    Nat.mod_lt _ (pow_pos (by norm_num) _)
  omega

lemma tsk_getu16_congr (en : Endian) (b1 b2 : Nat → Nat)
    (h : ∀ j, j < 2 → b1 j = b2 j) : tsk_getu16 en b1 = tsk_getu16 en b2 := by
  cases en <;> simp [tsk_getu16, h 0 (by omega), h 1 (by omega)]

lemma tsk_getu32_congr (en : Endian) (b1 b2 : Nat → Nat)
    (h : ∀ j, j < 4 → b1 j = b2 j) : tsk_getu32 en b1 = tsk_getu32 en b2 := by
  cases en <;> simp [tsk_getu32, h 0 (by omega), h 1 (by omega),
    h 2 (by omega), h 3 (by omega)]

lemma fat16_entry_pure (f : FATFS_INFO) (d : Disk) (clust : Nat)
    (hbs : f.block_size = f.ssize) (hss : f.ssize = 2 ^ f.ssize_sh)
    (hsh : 1 ≤ f.ssize_sh) (hS : 1 ≤ f.cacheS)
    (hcoh : CacheCoherent f d)
    (hsz : (f.firstfatsect + ((clust <<< 1) >>> f.ssize_sh)) * f.ssize +
      FAT_CACHE_B f ≤ d.size) :
    ∃ c2, fat16_entry f d clust =
        .ok (tsk_getu16 f.endian
          (fun j => d.read8 (f.firstfatsect * f.ssize + (clust <<< 1) + j)) &&&
          FATFS_16_MASK, { f with cache := c2 }) ∧
      CacheCoherent { f with cache := c2 } d := by
  obtain ⟨idx, c2, hacq, hlo, hhi, hbuf, hcoh2⟩ :=
    getFATCacheIdx_ok f d (f.firstfatsect + ((clust <<< 1) >>> f.ssize_sh))
      hbs hS hcoh hsz
  refine ⟨c2, ?_, hcoh2⟩
  have hred : fat16_entry f d clust = Except.ok (tsk_getu16 f.endian
      (fun j => c2.buf idx
        ((((f.firstfatsect + ((clust <<< 1) >>> f.ssize_sh)) - c2.addr idx) <<<
          f.ssize_sh) + (clust <<< 1) % f.ssize + j)) &&&
      FATFS_16_MASK, { f with cache := c2 }) := by
    unfold fat16_entry
    simp only [hacq]
  rw [hred]
  have hmod : (clust <<< 1) % f.ssize + 2 ≤ f.ssize := by
    rw [hss]
    exact shl1_mod_le clust f.ssize_sh hsh
  have hofflt := fat_offs_lt f.ssize f.ssize_sh f.cacheS (c2.addr idx)
    (f.firstfatsect + ((clust <<< 1) >>> f.ssize_sh)) (clust <<< 1) 2
    hss hmod hlo hhi
  have hval : tsk_getu16 f.endian
      (fun j => c2.buf idx
        ((((f.firstfatsect + ((clust <<< 1) >>> f.ssize_sh)) - c2.addr idx) <<<
          f.ssize_sh) + (clust <<< 1) % f.ssize + j)) =
      tsk_getu16 f.endian
        (fun j => d.read8 (f.firstfatsect * f.ssize + (clust <<< 1) + j)) := by
    apply tsk_getu16_congr
    intro j hj
    rw [hbuf _ (by unfold FAT_CACHE_B; omega)]
    congr 1
    exact fat_offs_eq f.ssize f.ssize_sh (c2.addr idx) f.firstfatsect
      (clust <<< 1) j hss hlo
  rw [hval]

lemma fat32_entry_pure (f : FATFS_INFO) (d : Disk) (clust : Nat)
    (hbs : f.block_size = f.ssize) (hss : f.ssize = 2 ^ f.ssize_sh)
    (hsh : 2 ≤ f.ssize_sh) (hS : 1 ≤ f.cacheS)
    (hcoh : CacheCoherent f d)
    (hsz : (f.firstfatsect + ((clust <<< 2) >>> f.ssize_sh)) * f.ssize +
      FAT_CACHE_B f ≤ d.size) :
    ∃ c2, fat32_entry f d clust =
        .ok (tsk_getu32 f.endian
          (fun j => d.read8 (f.firstfatsect * f.ssize + (clust <<< 2) + j)) &&&
          FATFS_32_MASK, { f with cache := c2 }) ∧
      CacheCoherent { f with cache := c2 } d := by
  obtain ⟨idx, c2, hacq, hlo, hhi, hbuf, hcoh2⟩ :=
    getFATCacheIdx_ok f d (f.firstfatsect + ((clust <<< 2) >>> f.ssize_sh))
      hbs hS hcoh hsz
  refine ⟨c2, ?_, hcoh2⟩
  have hred : fat32_entry f d clust = Except.ok (tsk_getu32 f.endian
      (fun j => c2.buf idx
        ((((f.firstfatsect + ((clust <<< 2) >>> f.ssize_sh)) - c2.addr idx) <<<
          f.ssize_sh) + (clust <<< 2) % f.ssize + j)) &&&
      FATFS_32_MASK, { f with cache := c2 }) := by
    unfold fat32_entry
    simp only [hacq]
  rw [hred]
  have hmod : (clust <<< 2) % f.ssize + 4 ≤ f.ssize := by
    rw [hss]
    exact shl2_mod_le clust f.ssize_sh hsh
  have hofflt := fat_offs_lt f.ssize f.ssize_sh f.cacheS (c2.addr idx)
    (f.firstfatsect + ((clust <<< 2) >>> f.ssize_sh)) (clust <<< 2) 4
    hss hmod hlo hhi
  have hval : tsk_getu32 f.endian
      (fun j => c2.buf idx
        ((((f.firstfatsect + ((clust <<< 2) >>> f.ssize_sh)) - c2.addr idx) <<<
          f.ssize_sh) + (clust <<< 2) % f.ssize + j)) =
      tsk_getu32 f.endian
        (fun j => d.read8 (f.firstfatsect * f.ssize + (clust <<< 2) + j)) := by
    apply tsk_getu32_congr
    intro j hj
    rw [hbuf _ (by unfold FAT_CACHE_B; omega)]
    congr 1
    exact fat_offs_eq f.ssize f.ssize_sh (c2.addr idx) f.firstfatsect
      (clust <<< 2) j hss hlo
  rw [hval]

lemma fat_offs_eq2 (ssize ssh ffs off0 j : Nat) (hss : ssize = 2 ^ ssh) :
    (ffs + (off0 >>> ssh)) * ssize + (off0 % ssize + j) =
      ffs * ssize + off0 + j := by
  subst hss
  rw [Nat.shiftRight_eq_div_pow]
  have h2 : (ffs + off0 / 2 ^ ssh) * 2 ^ ssh =
      ffs * 2 ^ ssh + off0 / 2 ^ ssh * 2 ^ ssh := Nat.add_mul _ _ _
  have h3 := Nat.div_add_mod off0 (2 ^ ssh)
  have h3b : off0 / 2 ^ ssh * 2 ^ ssh = 2 ^ ssh * (off0 / 2 ^ ssh) :=
    Nat.mul_comm _ _
  omega

lemma fat12_entry_pure (f : FATFS_INFO) (d : Disk) (clust : Nat)
    (hbs : f.block_size = f.ssize) (hss : f.ssize = 2 ^ f.ssize_sh)
    (hS : 2 ≤ f.cacheS)
    (hcoh : CacheCoherent f d)
    (hsz : (f.firstfatsect + ((clust + (clust >>> 1)) >>> f.ssize_sh)) *
      f.ssize + FAT_CACHE_B f ≤ d.size) :
    ∃ c2, fat12_entry f d clust =
        .ok ((if clust &&& 1 ≠ 0 then
            tsk_getu16 f.endian (fun j => d.read8
              (f.firstfatsect * f.ssize + (clust + (clust >>> 1)) + j)) >>> 4
          else
            tsk_getu16 f.endian (fun j => d.read8
              (f.firstfatsect * f.ssize + (clust + (clust >>> 1)) + j))) &&&
          FATFS_12_MASK, { f with cache := c2 }) ∧
      CacheCoherent { f with cache := c2 } d := by
  obtain ⟨idx, c2, hacq, hlo, hhi, hbuf, hcoh2⟩ :=
    getFATCacheIdx_ok f d
      (f.firstfatsect + ((clust + (clust >>> 1)) >>> f.ssize_sh))
      hbs (by omega) hcoh hsz
  have hsspos : 0 < f.ssize := by
    rw [hss]; exact pow_pos (by norm_num) _
  by_cases hstr :
      (((f.firstfatsect + ((clust + (clust >>> 1)) >>> f.ssize_sh)) -
        c2.addr idx) <<< f.ssize_sh) +
        (clust + (clust >>> 1)) % f.ssize = FAT_CACHE_B f - 1
  · -- straddle: the slot is reloaded at the FAT sector itself
    have hrd : tsk_fs_read d
        ((f.firstfatsect + ((clust + (clust >>> 1)) >>> f.ssize_sh)) *
          f.block_size) (FAT_CACHE_B f) =
        some (fun j => d.read8
          ((f.firstfatsect + ((clust + (clust >>> 1)) >>> f.ssize_sh)) *
            f.block_size + j)) := by
      unfold tsk_fs_read
      rw [if_pos (by rw [hbs]; exact hsz)]
    refine ⟨{ c2 with
        addr := Function.update c2.addr idx
          (f.firstfatsect + ((clust + (clust >>> 1)) >>> f.ssize_sh)),
        buf := Function.update c2.buf idx (fun j => d.read8
          ((f.firstfatsect + ((clust + (clust >>> 1)) >>> f.ssize_sh)) *
            f.block_size + j)) }, ?_, ?_⟩
    · have hred : fat12_entry f d clust = Except.ok
          ((if clust &&& 1 ≠ 0 then
              tsk_getu16 f.endian (fun j => Function.update c2.buf idx
                (fun j => d.read8
                  ((f.firstfatsect + ((clust + (clust >>> 1)) >>> f.ssize_sh)) *
                    f.block_size + j)) idx
                ((clust + (clust >>> 1)) % f.ssize + j)) >>> 4
            else
              tsk_getu16 f.endian (fun j => Function.update c2.buf idx
                (fun j => d.read8
                  ((f.firstfatsect + ((clust + (clust >>> 1)) >>> f.ssize_sh)) *
                    f.block_size + j)) idx
                ((clust + (clust >>> 1)) % f.ssize + j))) &&& FATFS_12_MASK,
            { f with cache := { c2 with
              addr := Function.update c2.addr idx
                (f.firstfatsect + ((clust + (clust >>> 1)) >>> f.ssize_sh)),
              buf := Function.update c2.buf idx (fun j => d.read8
                ((f.firstfatsect +
                  ((clust + (clust >>> 1)) >>> f.ssize_sh)) *
                  f.block_size + j)) } }) := by
        unfold fat12_entry
        simp only [hacq]
        have hstr2 : (((f.firstfatsect +
            ((clust + (clust >>> 1)) >>> f.ssize_sh)) - c2.addr idx) <<<
            f.ssize_sh) + (clust + (clust >>> 1)) % f.ssize =
            FAT_CACHE_B { f with cache := c2 } - 1 := hstr
        have hrd2 : tsk_fs_read d
            ((f.firstfatsect + ((clust + (clust >>> 1)) >>> f.ssize_sh)) *
              f.block_size) (FAT_CACHE_B { f with cache := c2 }) =
            some (fun j => d.read8
              ((f.firstfatsect + ((clust + (clust >>> 1)) >>> f.ssize_sh)) *
                f.block_size + j)) := hrd
        rw [if_pos hstr2, hrd2]
      rw [hred]
      have hval : tsk_getu16 f.endian (fun j => Function.update c2.buf idx
          (fun j => d.read8
            ((f.firstfatsect + ((clust + (clust >>> 1)) >>> f.ssize_sh)) *
              f.block_size + j)) idx
          ((clust + (clust >>> 1)) % f.ssize + j)) =
          tsk_getu16 f.endian (fun j => d.read8
            (f.firstfatsect * f.ssize + (clust + (clust >>> 1)) + j)) := by
        apply tsk_getu16_congr
        intro j hj
        rw [Function.update_same]
        rw [hbs]
        congr 1
        exact fat_offs_eq2 f.ssize f.ssize_sh f.firstfatsect
          (clust + (clust >>> 1)) j hss
      rw [hval]
    · intro a haN hapos j hj
      have haN2 : a < f.cacheN := haN
      have hj2 : j < FAT_CACHE_B f := hj
      by_cases hai : a = idx
      · subst hai
        show Function.update c2.buf a
            (fun j => d.read8
              ((f.firstfatsect + ((clust + (clust >>> 1)) >>> f.ssize_sh)) *
                f.block_size + j)) a j =
          d.read8 (Function.update c2.addr a
            (f.firstfatsect + ((clust + (clust >>> 1)) >>> f.ssize_sh)) a *
            f.ssize + j)
        rw [Function.update_same, Function.update_same, hbs]
      · show Function.update c2.buf idx
            (fun j => d.read8
              ((f.firstfatsect + ((clust + (clust >>> 1)) >>> f.ssize_sh)) *
                f.block_size + j)) a j =
          d.read8 (Function.update c2.addr idx
            (f.firstfatsect + ((clust + (clust >>> 1)) >>> f.ssize_sh)) a *
            f.ssize + j)
        rw [Function.update_noteq hai, Function.update_noteq hai]
        have hapos2 : 0 < c2.ttl a := hapos
        exact hcoh2 a haN2 hapos2 j hj2
  · -- no straddle: both bytes are inside the loaded window
    refine ⟨c2, ?_, hcoh2⟩
    have hred : fat12_entry f d clust = Except.ok
        ((if clust &&& 1 ≠ 0 then
            tsk_getu16 f.endian (fun j => c2.buf idx
              (((((f.firstfatsect +
                ((clust + (clust >>> 1)) >>> f.ssize_sh)) - c2.addr idx) <<<
                f.ssize_sh) + (clust + (clust >>> 1)) % f.ssize) + j)) >>> 4
          else
            tsk_getu16 f.endian (fun j => c2.buf idx
              (((((f.firstfatsect +
                ((clust + (clust >>> 1)) >>> f.ssize_sh)) - c2.addr idx) <<<
                f.ssize_sh) + (clust + (clust >>> 1)) % f.ssize) + j))) &&&
          FATFS_12_MASK, { f with cache := c2 }) := by
      unfold fat12_entry
      simp only [hacq]
      have hstr2 : ¬((((f.firstfatsect +
          ((clust + (clust >>> 1)) >>> f.ssize_sh)) - c2.addr idx) <<<
          f.ssize_sh) + (clust + (clust >>> 1)) % f.ssize =
          FAT_CACHE_B { f with cache := c2 } - 1) := hstr
      rw [if_neg hstr2]
    rw [hred]
    have hmod : (clust + (clust >>> 1)) % f.ssize + 1 ≤ f.ssize := by
      have := Nat.mod_lt (clust + (clust >>> 1)) hsspos
      omega
    have hofflt := fat_offs_lt f.ssize f.ssize_sh f.cacheS (c2.addr idx)
      (f.firstfatsect + ((clust + (clust >>> 1)) >>> f.ssize_sh))
      (clust + (clust >>> 1)) 1 hss hmod hlo hhi
    have hB : f.ssize ≤ FAT_CACHE_B f := by
      unfold FAT_CACHE_B
      calc f.ssize = 1 * f.ssize := (Nat.one_mul _).symm
        _ ≤ f.cacheS * f.ssize := Nat.mul_le_mul_right _ (by omega)
    have hval : tsk_getu16 f.endian (fun j => c2.buf idx
        (((((f.firstfatsect +
          ((clust + (clust >>> 1)) >>> f.ssize_sh)) - c2.addr idx) <<<
          f.ssize_sh) + (clust + (clust >>> 1)) % f.ssize) + j)) =
        tsk_getu16 f.endian (fun j => d.read8
          (f.firstfatsect * f.ssize + (clust + (clust >>> 1)) + j)) := by
      apply tsk_getu16_congr
      intro j hj
      rw [hbuf _ (by unfold FAT_CACHE_B at *; omega)]
      congr 1
      exact fat_offs_eq f.ssize f.ssize_sh (c2.addr idx) f.firstfatsect
        (clust + (clust >>> 1)) j hss hlo
    rw [hval]

lemma fatfs_getFAT_pure (f : FATFS_INFO) (d : Disk) (clust v0 : Nat)
    (hwf : FatGeomWF f) (hcoh : CacheCoherent f d) (hrd : FatReadOk f d)
    (hin : clust ≤ f.lastclust) :
    ∃ c2, fatfs_getFAT f d clust v0 =
        (none, { f with cache := c2 }, pureFatClamped f d clust) ∧
      CacheCoherent { f with cache := c2 } d := by
  obtain ⟨hbs, hss, hsh, hS, hcs, hlc, hdc, hfl, h12⟩ := hwf
  have hnot : ¬(clust > f.lastclust) := by omega
  unfold fatfs_getFAT
  rw [if_neg hnot]
  rcases hfl with ht | ht | ht
  · -- FAT12
    have hscreen := h12 ht clust hin
    have hsz : (f.firstfatsect + ((clust + (clust >>> 1)) >>> f.ssize_sh)) *
        f.ssize + FAT_CACHE_B f ≤ d.size := by
      have h := hrd clust hin
      unfold fatEntryOff at h
      rw [ht] at h
      exact h
    obtain ⟨c2, hfe, hcoh2⟩ := fat12_entry_pure f d clust hbs hss hS hcoh hsz
    refine ⟨c2, ?_, hcoh2⟩
    rw [ht]
    rw [if_neg (by simp [hscreen])]
    rw [hfe]
    simp only [pureFatClamped, pureFatValue, ht]
    rfl
  · -- FAT16
    have hsz : (f.firstfatsect + ((clust <<< 1) >>> f.ssize_sh)) *
        f.ssize + FAT_CACHE_B f ≤ d.size := by
      have h := hrd clust hin
      unfold fatEntryOff at h
      rw [ht] at h
      exact h
    obtain ⟨c2, hfe, hcoh2⟩ := fat16_entry_pure f d clust hbs hss
      (by omega) (by omega) hcoh hsz
    refine ⟨c2, ?_, hcoh2⟩
    rw [ht]
    rw [hfe]
    simp only [pureFatClamped, pureFatValue, ht]
    rfl
  · -- FAT32
    have hsz : (f.firstfatsect + ((clust <<< 2) >>> f.ssize_sh)) *
        f.ssize + FAT_CACHE_B f ≤ d.size := by
      have h := hrd clust hin
      unfold fatEntryOff at h
      rw [ht] at h
      exact h
    obtain ⟨c2, hfe, hcoh2⟩ := fat32_entry_pure f d clust hbs hss hsh
      (by omega) hcoh hsz
    refine ⟨c2, ?_, hcoh2⟩
    rw [ht]
    rw [hfe]
    simp only [pureFatClamped, pureFatValue, ht]
    rfl

lemma sect2clust_le (f : FATFS_INFO) (sect : Nat)
    (hcs : 0 < f.csize) (hlc : f.lastclust = f.clustcnt + 1)
    (hge : f.firstclustsect ≤ sect)
    (hlt : sect < f.firstclustsect + f.csize * f.clustcnt) :
    FATFS_SECT_2_CLUST f sect ≤ f.lastclust := by
  unfold FATFS_SECT_2_CLUST
  have h1 : sect - f.firstclustsect < f.csize * f.clustcnt := by omega
  have h2 : (sect - f.firstclustsect) / f.csize < f.clustcnt :=
    Nat.div_lt_of_lt_mul h1
  omega

lemma fatfs_is_sectalloc_pure (f : FATFS_INFO) (d : Disk) (sect : Nat)
    (hwf : FatGeomWF f) (hcoh : CacheCoherent f d) (hrd : FatReadOk f d)
    (hle : sect ≤ f.last_block) :
    ∃ c2, fatfs_is_sectalloc f d sect =
        .ok (pureSectAlloc f d sect, { f with cache := c2 }) ∧
      CacheCoherent { f with cache := c2 } d := by
  unfold fatfs_is_sectalloc pureSectAlloc
  by_cases h1 : sect < f.firstclustsect
  · rw [if_pos h1, if_pos h1]
    exact ⟨f.cache, rfl, hcoh⟩
  · rw [if_neg h1, if_neg h1]
    by_cases h2 : sect ≤ f.last_block ∧
        f.firstclustsect + f.csize * f.clustcnt ≤ sect
    · rw [if_pos h2, if_pos h2]
      exact ⟨f.cache, rfl, hcoh⟩
    · rw [if_neg h2, if_neg h2]
      have hclust : FATFS_SECT_2_CLUST f sect ≤ f.lastclust :=
        sect2clust_le f sect hwf.2.2.2.2.1 hwf.2.2.2.2.2.1 (by omega) (by omega)
      obtain ⟨c2, hg, hcoh2⟩ := fatfs_getFAT_pure f d
        (FATFS_SECT_2_CLUST f sect) 0 hwf hcoh hrd hclust
      refine ⟨c2, ?_, hcoh2⟩
      unfold fatfs_is_clustalloc
      rw [hg]

lemma fatfs_block_getflags_pure (f : FATFS_INFO) (d : Disk) (a : Nat)
    (hwf : FatGeomWF f) (hcoh : CacheCoherent f d) (hrd : FatReadOk f d)
    (hle : a ≤ f.last_block) :
    fatfs_block_getflags f d a = classifyPure f d a := by
  unfold fatfs_block_getflags classifyPure
  by_cases h1 : a < f.firstdatasect
  · rw [if_pos h1, if_pos h1]
  · rw [if_neg h1, if_neg h1]
    by_cases h2 : a < f.firstclustsect
    · rw [if_pos h2, if_pos h2]
    · rw [if_neg h2, if_neg h2]
      obtain ⟨c2, hs, _⟩ := fatfs_is_sectalloc_pure f d a hwf hcoh hrd hle
      rw [hs]

/-- The walk's delivery decision for one sector, in pure terms: deliver iff
the sector's classification passes the (sanitized) walk flags. -/
def preEntry (f : FATFS_INFO) (d : Disk) (fl : WalkFlags) (a : Nat) :
    Option WEntry :=
  if flagSat fl (classifyPure f d a) then
    some (a, classifyPure f d a ||| FLAG_RAW, sectorData f d a)
  else none

lemma flagSat_metaAlloc (fl : WalkFlags) :
    flagSat fl (FLAG_META ||| FLAG_ALLOC) = (fl.meta && fl.alloc) := by
  rcases fl with ⟨a, u, m, c⟩
  cases a <;> cases u <;> cases m <;> cases c <;> decide

lemma flagSat_contAlloc (fl : WalkFlags) :
    flagSat fl (FLAG_CONT ||| FLAG_ALLOC) = (fl.cont && fl.alloc) := by
  rcases fl with ⟨a, u, m, c⟩
  cases a <;> cases u <;> cases m <;> cases c <;> decide

lemma flagSat_contUnalloc (fl : WalkFlags) :
    flagSat fl (FLAG_CONT ||| FLAG_UNALLOC) = (fl.cont && fl.unalloc) := by
  rcases fl with ⟨a, u, m, c⟩
  cases a <;> cases u <;> cases m <;> cases c <;> decide

lemma sectorData_of_buf (f : FATFS_INFO) (d : Disk) (buf : Nat → Nat)
    (base : Nat) (hbuf : ∀ j, buf j = d.read8 (base * f.block_size + j))
    (i : Nat) :
    (List.range f.block_size).map (fun j => buf (i * f.block_size + j)) =
      sectorData f d (base + i) := by
  unfold sectorData
  apply List.map_congr_left
  intro j _
  rw [hbuf]
  congr 1
  have h1 := Nat.add_mul base i f.block_size
  omega

lemma walkPreInner_cont_spec (f : FATFS_INFO) (d : Disk) (e : Nat)
    (fl : WalkFlags) (buf : Nat → Nat) (base : Nat)
    (hbuf : ∀ j, buf j = d.read8 (base * f.block_size + j))
    (hallo : fl.alloc = true) :
    ∀ c i, base + i ≤ min f.firstclustsect (e + 1) →
      walkPreInner f e fl (fun _ _ _ => .cont) buf base c i =
        ((List.range' (base + i)
            (min c (min f.firstclustsect (e + 1) - (base + i)))).filterMap
          (preEntry f d fl),
         .next (base + i +
           min c (min f.firstclustsect (e + 1) - (base + i)))) := by
  intro c
  induction c with
  | zero =>
    intro i _
    simp only [walkPreInner, Nat.zero_min]
    norm_num
  | succ n ih =>
    intro i hi
    by_cases hg : base + i ≤ e ∧ base + i < f.firstclustsect
    · have hlt : base + i < min f.firstclustsect (e + 1) := by omega
      have hrec := ih (i + 1) (by omega)
      rw [show base + (i + 1) = base + i + 1 from by omega] at hrec
      have hminsucc : min (n + 1) (min f.firstclustsect (e + 1) - (base + i)) =
          min n (min f.firstclustsect (e + 1) - (base + i + 1)) + 1 := by
        omega
      have hnext : base + i +
          (min n (min f.firstclustsect (e + 1) - (base + i + 1)) + 1) =
          base + i + 1 +
            min n (min f.firstclustsect (e + 1) - (base + i + 1)) := by
        omega
      simp only [walkPreInner]
      rw [if_pos hg, hminsucc, hnext, List.range'_succ]
      by_cases hfds : base + i < f.firstdatasect
      · rw [if_pos hfds]
        have hcl : classifyPure f d (base + i) = FLAG_META ||| FLAG_ALLOC := by
          unfold classifyPure
          rw [if_pos hfds]
        by_cases hm : fl.meta
        · rw [if_neg (by simp [hm])]
          rw [if_neg (by intro hc; exact hc.1 (by decide))]
          show ((base + i, (FLAG_ALLOC ||| FLAG_META) ||| FLAG_RAW,
              (List.range f.block_size).map
                (fun j => buf (i * f.block_size + j))) ::
              (walkPreInner f e fl (fun _ _ _ => .cont) buf base n (i + 1)).1,
            (walkPreInner f e fl (fun _ _ _ => .cont) buf base n (i + 1)).2) = _
          rw [hrec, List.filterMap_cons]
          have hpe : preEntry f d fl (base + i) = some (base + i,
              (FLAG_META ||| FLAG_ALLOC) ||| FLAG_RAW,
              sectorData f d (base + i)) := by
            unfold preEntry
            rw [hcl, if_pos (by rw [flagSat_metaAlloc]; simp [hm, hallo])]
          rw [hpe, ← sectorData_of_buf f d buf base hbuf i,
            show (FLAG_META ||| FLAG_ALLOC) ||| FLAG_RAW =
              (FLAG_ALLOC ||| FLAG_META) ||| FLAG_RAW from by decide]
        · rw [if_pos ⟨by decide, hm⟩]
          rw [hrec, List.filterMap_cons]
          have hpe : preEntry f d fl (base + i) = none := by
            unfold preEntry
            rw [hcl]
            simp [flagSat_metaAlloc, hm]
          rw [hpe]
      · rw [if_neg hfds]
        have hcl : classifyPure f d (base + i) = FLAG_CONT ||| FLAG_ALLOC := by
          unfold classifyPure
          rw [if_neg hfds, if_pos hg.2]
        rw [if_neg (by intro hc; exact hc.1 (by decide))]
        by_cases hcnt : fl.cont
        · rw [if_neg (by simp [hcnt])]
          show ((base + i, (FLAG_ALLOC ||| FLAG_CONT) ||| FLAG_RAW,
              (List.range f.block_size).map
                (fun j => buf (i * f.block_size + j))) ::
              (walkPreInner f e fl (fun _ _ _ => .cont) buf base n (i + 1)).1,
            (walkPreInner f e fl (fun _ _ _ => .cont) buf base n (i + 1)).2) = _
          rw [hrec, List.filterMap_cons]
          have hpe : preEntry f d fl (base + i) = some (base + i,
              (FLAG_CONT ||| FLAG_ALLOC) ||| FLAG_RAW,
              sectorData f d (base + i)) := by
            unfold preEntry
            rw [hcl, if_pos (by rw [flagSat_contAlloc]; simp [hcnt, hallo])]
          rw [hpe, ← sectorData_of_buf f d buf base hbuf i,
            show (FLAG_CONT ||| FLAG_ALLOC) ||| FLAG_RAW =
              (FLAG_ALLOC ||| FLAG_CONT) ||| FLAG_RAW from by decide]
        · rw [if_pos ⟨by decide, hcnt⟩]
          rw [hrec, List.filterMap_cons]
          have hpe : preEntry f d fl (base + i) = none := by
            unfold preEntry
            rw [hcl]
            simp [flagSat_contAlloc, hcnt]
          rw [hpe]
    · have hz : min f.firstclustsect (e + 1) - (base + i) = 0 := by omega
      simp only [walkPreInner]
      rw [if_neg hg, hz]
      norm_num

lemma range'_split (s k n : Nat) (h : k ≤ n) :
    List.range' s n = List.range' s k ++ List.range' (s + k) (n - k) := by
  have h1 := List.range'_append s k (n - k) 1
  rw [Nat.one_mul] at h1
  rw [show n - k + k = n from by omega] at h1
  exact h1.symm

lemma walkPreOuter_cont_spec (f : FATFS_INFO) (d : Disk) (e : Nat)
    (fl : WalkFlags) (hallo : fl.alloc = true)
    (hsz : ∀ a, a < f.firstclustsect → a ≤ e →
      a * f.block_size + f.block_size * 8 ≤ d.size) :
    ∀ n addr, addr ≤ min f.firstclustsect (e + 1) →
      min f.firstclustsect (e + 1) - addr ≤ n →
      walkPreOuter f d e fl (fun _ _ _ => .cont) addr =
        ((List.range' addr (min f.firstclustsect (e + 1) - addr)).filterMap
          (preEntry f d fl),
         .next (min f.firstclustsect (e + 1))) := by
  intro n
  induction n with
  | zero =>
    intro addr h1 h2
    have haL : addr = min f.firstclustsect (e + 1) := by omega
    unfold walkPreOuter
    rw [dif_neg (by omega)]
    have hz : min f.firstclustsect (e + 1) - addr = 0 := by omega
    rw [hz, haL]
    rfl
  | succ n ih =>
    intro addr h1 h2
    by_cases hg : addr < f.firstclustsect ∧ addr ≤ e
    · unfold walkPreOuter
      rw [dif_pos hg]
      have hrd : tsk_fs_read d (addr * f.block_size) (f.block_size * 8) =
          some (fun j => d.read8 (addr * f.block_size + j)) := by
        unfold tsk_fs_read
        rw [if_pos (hsz addr hg.1 hg.2)]
      rw [hrd]
      have hinner := walkPreInner_cont_spec f d e fl
        (fun j => d.read8 (addr * f.block_size + j)) addr (fun j => rfl)
        hallo 8 0 (by omega)
      rw [Nat.add_zero] at hinner
      split
      next heq => exact Option.noConfusion heq
      next buf heq =>
        injection heq with hbufeq
        subst hbufeq
        split
        next tr r heq2 =>
          rw [hinner] at heq2
          injection heq2 with hq1 hq2
          injection hq2
        next tr addr2 heq2 =>
          rw [hinner] at heq2
          injection heq2 with hq1 hq2
          injection hq2 with hq3
          have hrec := ih addr2 (by omega) (by omega)
          show (tr ++ (walkPreOuter f d e fl (fun _ _ _ => .cont) addr2).1,
            (walkPreOuter f d e fl (fun _ _ _ => .cont) addr2).2) = _
          have hA : (walkPreOuter f d e fl (fun _ _ _ => .cont) addr2).1 =
              (List.range' addr2
                (min f.firstclustsect (e + 1) - addr2)).filterMap
                (preEntry f d fl) := by
            rw [hrec]
          have hB : (walkPreOuter f d e fl (fun _ _ _ => .cont) addr2).2 =
              PreOut.next (min f.firstclustsect (e + 1)) := by
            rw [hrec]
          rw [hA, hB, ← hq1, ← hq3]
          rw [show min f.firstclustsect (e + 1) -
              (addr + min 8 (min f.firstclustsect (e + 1) - addr)) =
              (min f.firstclustsect (e + 1) - addr) -
                min 8 (min f.firstclustsect (e + 1) - addr) from by omega]
          rw [← List.filterMap_append]
          rw [← range'_split addr
            (min 8 (min f.firstclustsect (e + 1) - addr))
            (min f.firstclustsect (e + 1) - addr) (by omega)]
    · have haL : addr = min f.firstclustsect (e + 1) := by omega
      unfold walkPreOuter
      rw [dif_neg (by omega)]
      have hz : min f.firstclustsect (e + 1) - addr = 0 := by omega
      rw [hz, haL]
      rfl

/-- The data-phase inner loop's delivery decision: sectors below the start
are skipped, the rest are delivered with the cluster's flags. -/
def dataEntry (f : FATFS_INFO) (d : Disk) (s mfl : Nat) (a : Nat) :
    Option WEntry :=
  if a < s then none else some (a, mfl ||| FLAG_RAW, sectorData f d a)

/-- The data-phase delivery decision in pure classification terms (the form
the claims use). -/
def dataEntryC (f : FATFS_INFO) (d : Disk) (s : Nat) (fl : WalkFlags)
    (a : Nat) : Option WEntry :=
  if a < s then none
  else if flagSat fl (classifyPure f d a) then
    some (a, classifyPure f d a ||| FLAG_RAW, sectorData f d a)
  else none

lemma filterMap_congr_mem {α β : Type} (l : List α) (g1 g2 : α → Option β)
    (h : ∀ a ∈ l, g1 a = g2 a) : l.filterMap g1 = l.filterMap g2 := by
  induction l with
  | nil => rfl
  | cons x xs ih =>
    rw [List.filterMap_cons, List.filterMap_cons, h x (by simp)]
    rw [ih (fun a ha => h a (by simp [ha]))]

lemma filterMap_none_nil {α β : Type} (l : List α) (g : α → Option β)
    (h : ∀ a ∈ l, g a = none) : l.filterMap g = [] := by
  induction l with
  | nil => rfl
  | cons x xs ih =>
    rw [List.filterMap_cons, h x (by simp)]
    exact ih (fun a ha => h a (by simp [ha]))

lemma filterMap_cluster_merge2 (dc : Nat → Option WEntry) (addr e k : Nat)
    (hge : addr ≤ e) :
    List.filterMap dc (List.range' addr (min k (e + 1 - addr))) ++
      List.filterMap dc (List.range' (addr + k) (e + 1 - (addr + k))) =
      List.filterMap dc (List.range' addr (e + 1 - addr)) := by
  by_cases hfit : k ≤ e + 1 - addr
  · rw [show min k (e + 1 - addr) = k from by omega,
      show e + 1 - (addr + k) = (e + 1 - addr) - k from by omega,
      ← List.filterMap_append, ← range'_split addr k (e + 1 - addr) hfit]
  · rw [show min k (e + 1 - addr) = e + 1 - addr from by omega,
      show e + 1 - (addr + k) = 0 from by omega,
      show List.range' (addr + k) 0 = ([] : List Nat) from rfl,
      show List.filterMap dc ([] : List Nat) = [] from rfl, List.append_nil]

lemma filterMap_cluster_merge1 (dc : Nat → Option WEntry) (addr e k : Nat)
    (hge : addr ≤ e)
    (hnone : ∀ a ∈ List.range' addr (min k (e + 1 - addr)), dc a = none) :
    List.filterMap dc (List.range' (addr + k) (e + 1 - (addr + k))) =
      List.filterMap dc (List.range' addr (e + 1 - addr)) := by
  rw [← filterMap_cluster_merge2 dc addr e k hge,
    filterMap_none_nil _ _ hnone, List.nil_append]

lemma walkDataInner_cont_spec (f : FATFS_INFO) (d : Disk) (s e : Nat)
    (mfl : Nat) (buf : Nat → Nat) (base : Nat)
    (hbuf : ∀ j, buf j = d.read8 (base * f.block_size + j)) :
    ∀ c i, base + i + c ≤ e + 1 →
      walkDataInner f s e mfl (fun _ _ _ => .cont) buf base c i =
        ((List.range' (base + i) c).filterMap (dataEntry f d s mfl),
          .next) := by
  intro c
  induction c with
  | zero =>
    intro i _
    rfl
  | succ n ih =>
    intro i h
    simp only [walkDataInner]
    rw [List.range'_succ, List.filterMap_cons]
    by_cases hs : base + i < s
    · rw [if_pos hs]
      rw [ih (i + 1) (by omega)]
      rw [show base + (i + 1) = base + i + 1 from by omega]
      have hde : dataEntry f d s mfl (base + i) = none := by
        unfold dataEntry
        rw [if_pos hs]
      rw [hde]
    · rw [if_neg hs, if_neg (show ¬(e < base + i) from by omega)]
      show ((base + i, mfl ||| FLAG_RAW,
          (List.range f.block_size).map
            (fun j => buf (i * f.block_size + j))) ::
          (walkDataInner f s e mfl (fun _ _ _ => .cont) buf base n (i + 1)).1,
        (walkDataInner f s e mfl (fun _ _ _ => .cont) buf base n (i + 1)).2) = _
      rw [ih (i + 1) (by omega)]
      rw [show base + (i + 1) = base + i + 1 from by omega]
      have hde : dataEntry f d s mfl (base + i) = some (base + i,
          mfl ||| FLAG_RAW, sectorData f d (base + i)) := by
        unfold dataEntry
        rw [if_neg hs]
      rw [hde, ← sectorData_of_buf f d buf base hbuf i]

lemma pureSectAlloc_cluster (f : FATFS_INFO) (d : Disk) (addr a : Nat)
    (hcs : 0 < f.csize) (halign : ∃ k, addr = f.firstclustsect + k * f.csize)
    (h1 : addr ≤ a) (h2 : a < addr + f.csize)
    (hla : addr ≤ f.last_block) (haa : a ≤ f.last_block) :
    pureSectAlloc f d a = pureSectAlloc f d addr := by
  obtain ⟨k, hk⟩ := halign
  unfold pureSectAlloc
  have hge : f.firstclustsect ≤ addr := by omega
  rw [if_neg (show ¬(a < f.firstclustsect) from by omega),
    if_neg (show ¬(addr < f.firstclustsect) from by omega)]
  by_cases hB : f.firstclustsect + f.csize * f.clustcnt ≤ addr
  · rw [if_pos ⟨haa, by omega⟩, if_pos ⟨hla, hB⟩]
  · have hkc : k < f.clustcnt := by
      by_contra hkk
      push_neg at hkk
      apply hB
      rw [hk]
      have h5 : f.csize * f.clustcnt ≤ k * f.csize := by
        rw [Nat.mul_comm]
        exact Nat.mul_le_mul_right _ hkk
      omega
    have hbound : addr + f.csize ≤ f.firstclustsect + f.csize * f.clustcnt := by
      rw [hk]
      have h5 : (k + 1) * f.csize ≤ f.clustcnt * f.csize :=
        Nat.mul_le_mul_right _ (by omega)
      rw [Nat.succ_mul] at h5
      have hc : f.csize * f.clustcnt = f.clustcnt * f.csize :=
        Nat.mul_comm _ _
      omega
    rw [if_neg (show ¬(a ≤ f.last_block ∧
        f.firstclustsect + f.csize * f.clustcnt ≤ a) from by
      intro hcc
      omega)]
    rw [if_neg (show ¬(addr ≤ f.last_block ∧
        f.firstclustsect + f.csize * f.clustcnt ≤ addr) from by
      intro hcc
      omega)]
    have hsc : FATFS_SECT_2_CLUST f a = FATFS_SECT_2_CLUST f addr := by
      unfold FATFS_SECT_2_CLUST
      congr 1
      have ha1 : a - f.firstclustsect = f.csize * k + (a - addr) := by
        have := Nat.mul_comm k f.csize
        omega
      have ha2 : addr - f.firstclustsect = f.csize * k := by
        have := Nat.mul_comm k f.csize
        omega
      rw [ha1, ha2, Nat.mul_add_div hcs, Nat.mul_div_cancel_left _ hcs,
        Nat.div_eq_of_lt (show a - addr < f.csize from by omega)]
      omega
    rw [hsc]

lemma walkDataOuter_cont_spec (f : FATFS_INFO) (d : Disk) (s e : Nat)
    (fl : WalkFlags) (hwf : FatGeomWF f) (hrd : FatReadOk f d)
    (hsz : (e + 1) * f.block_size ≤ d.size) (hle : e ≤ f.last_block) :
    ∀ n addr c2,
      CacheCoherent { f with cache := c2 } d →
      (∃ k, addr = f.firstclustsect + k * f.csize) →
      e + 1 - addr ≤ n →
      walkDataOuter d s e fl (fun _ _ _ => .cont) { f with cache := c2 }
        addr =
        (0, (List.range' addr (e + 1 - addr)).filterMap
          (dataEntryC f d s fl)) := by
  intro n
  induction n with
  | zero =>
    intro addr c2 _ _ hn
    unfold walkDataOuter
    rw [dif_neg (by
      intro hc
      have hc1 : addr ≤ e := hc.1
      omega)]
    rw [show e + 1 - addr = 0 from by omega]
    rfl
  | succ n ih =>
    intro addr c2 hcoh halign hn
    by_cases hge : addr ≤ e
    · have hcs : 0 < f.csize := hwf.2.2.2.2.1
      have hdc : f.firstdatasect ≤ f.firstclustsect := hwf.2.2.2.2.2.2.1
      obtain ⟨k, hk⟩ := halign
      have hgeF : f.firstclustsect ≤ addr := by omega
      have hwfc : FatGeomWF { f with cache := c2 } := hwf
      have hrdc : FatReadOk { f with cache := c2 } d := hrd
      obtain ⟨c3, hsa, hcoh3⟩ := fatfs_is_sectalloc_pure
        { f with cache := c2 } d addr hwfc hcoh hrdc
        (show addr ≤ ({ f with cache := c2 } : FATFS_INFO).last_block from
          show addr ≤ f.last_block from by omega)
      have hsa2 : fatfs_is_sectalloc { f with cache := c2 } d addr =
          .ok (pureSectAlloc f d addr, { f with cache := c3 }) := hsa
      have hcoh3b : CacheCoherent { f with cache := c3 } d := hcoh3
      have hrecnext : walkDataOuter d s e fl (fun _ _ _ => .cont)
          { f with cache := c3 } (addr + f.csize) =
          (0, (List.range' (addr + f.csize)
            (e + 1 - (addr + f.csize))).filterMap (dataEntryC f d s fl)) :=
        ih (addr + f.csize) c3 hcoh3b
          ⟨k + 1, by rw [Nat.add_mul, Nat.one_mul]; omega⟩ (by omega)
      have hclassify : ∀ a, addr ≤ a → a < addr + f.csize → a ≤ e →
          classifyPure f d a = FLAG_CONT |||
            (if pureSectAlloc f d addr then FLAG_ALLOC else FLAG_UNALLOC) := by
        intro a ha1 ha2 ha3
        unfold classifyPure
        rw [if_neg (show ¬(a < f.firstdatasect) from by omega),
          if_neg (show ¬(a < f.firstclustsect) from by omega)]
        rw [pureSectAlloc_cluster f d addr a hcs ⟨k, hk⟩ ha1 ha2
          (by omega) (by omega)]
      have hrs1 : (if e - addr + 1 < f.csize then e - addr + 1 else f.csize) ≤
          e + 1 - addr := by
        split <;> omega
      unfold walkDataOuter
      simp only []
      rw [dif_pos ⟨hge, hcs⟩]
      rw [hsa2]
      split
      next heq => exact Except.noConfusion heq
      next alloc f2 heq =>
        injection heq with hq
        injection hq with hq1 hq2
        subst hq1
        subst hq2
        by_cases hca : pureSectAlloc f d addr = true
        · -- allocated cluster
          rw [if_pos hca]
          have hclA : ∀ a, addr ≤ a → a < addr + f.csize → a ≤ e →
              classifyPure f d a = FLAG_CONT ||| FLAG_ALLOC := by
            intro a ha1 ha2 ha3
            rw [hclassify a ha1 ha2 ha3, hca]
            rfl
          by_cases hcnt : fl.cont = true
          · rw [if_neg (show ¬((FLAG_ALLOC ||| FLAG_CONT) &&& FLAG_CONT ≠ 0 ∧
                ¬fl.cont = true) from by simp [hcnt])]
            by_cases hal : fl.alloc = true
            · -- delivered
              rw [if_neg (show ¬((FLAG_ALLOC ||| FLAG_CONT) &&& FLAG_ALLOC ≠ 0 ∧
                  ¬fl.alloc = true) from by simp [hal])]
              rw [if_neg (show ¬((FLAG_ALLOC ||| FLAG_CONT) &&&
                  FLAG_UNALLOC ≠ 0 ∧ ¬fl.unalloc = true) from by
                intro hc
                exact hc.1 (by decide))]
              have hrdok : tsk_fs_read d (addr * f.block_size)
                  (f.block_size *
                    (if e - addr + 1 < f.csize then e - addr + 1
                      else f.csize)) =
                  some (fun j => d.read8 (addr * f.block_size + j)) := by
                unfold tsk_fs_read
                rw [if_pos ?_]
                have h6 : f.block_size *
                    (if e - addr + 1 < f.csize then e - addr + 1
                      else f.csize) ≤ f.block_size * (e + 1 - addr) :=
                  Nat.mul_le_mul_left _ hrs1
                have h7 : f.block_size * (e + 1 - addr) =
                    (e + 1 - addr) * f.block_size := Nat.mul_comm _ _
                have h8 := Nat.add_mul addr (e + 1 - addr) f.block_size
                rw [show addr + (e + 1 - addr) = e + 1 from by omega] at h8
                omega
              rw [hrdok]
              have hinner : walkDataInner { f with cache := c2 } s e
                  (FLAG_ALLOC ||| FLAG_CONT) (fun _ _ _ => .cont)
                  (fun j => d.read8 (addr * f.block_size + j)) addr
                  (if e - addr + 1 < f.csize then e - addr + 1 else f.csize)
                  0 =
                  ((List.range' addr
                    (if e - addr + 1 < f.csize then e - addr + 1
                      else f.csize)).filterMap
                    (dataEntry f d s (FLAG_ALLOC ||| FLAG_CONT)),
                   .next) := by
                have hh := walkDataInner_cont_spec { f with cache := c2 } d
                  s e (FLAG_ALLOC ||| FLAG_CONT)
                  (fun j => d.read8 (addr * f.block_size + j)) addr
                  (fun j => rfl)
                  (if e - addr + 1 < f.csize then e - addr + 1 else f.csize)
                  0 (by omega)
                rw [Nat.add_zero] at hh
                exact hh
              split
              next heqr => exact Option.noConfusion heqr
              next buf heqr =>
               injection heqr with hbufeq
               subst hbufeq
               split
               next tr r heq3 =>
                rw [hinner] at heq3
                injection heq3 with hq3 hq4
                injection hq4
               next tr heq3 =>
                rw [hinner] at heq3
                injection heq3 with hq3 hq4
                show ((walkDataOuter d s e fl (fun _ _ _ => .cont)
                    { f with cache := c3 } (addr + f.csize)).1,
                  tr ++ (walkDataOuter d s e fl (fun _ _ _ => .cont)
                    { f with cache := c3 } (addr + f.csize)).2) = _
                rw [hrecnext, ← hq3]
                have hconv : ∀ a ∈ List.range' addr
                    (if e - addr + 1 < f.csize then e - addr + 1
                      else f.csize),
                    dataEntry f d s (FLAG_ALLOC ||| FLAG_CONT) a =
                      dataEntryC f d s fl a := by
                  intro a ha
                  rw [List.mem_range'_1] at ha
                  have hae : a ≤ e := by omega
                  unfold dataEntry dataEntryC
                  by_cases has : a < s
                  · rw [if_pos has, if_pos has]
                  · rw [if_neg has, if_neg has]
                    have hrs2 : (if e - addr + 1 < f.csize then e - addr + 1
                        else f.csize) ≤ f.csize := by
                      split <;> omega
                    rw [hclA a (by omega) (by omega) hae]
                    rw [if_pos (show flagSat fl
                        (FLAG_CONT ||| FLAG_ALLOC) = true from by
                      rw [flagSat_contAlloc, hcnt, hal]
                      rfl)]
                    rw [show (FLAG_CONT ||| FLAG_ALLOC) ||| FLAG_RAW =
                      (FLAG_ALLOC ||| FLAG_CONT) ||| FLAG_RAW from by decide]
                rw [filterMap_congr_mem _ _ _ hconv]
                show ((0 : Nat), List.filterMap (dataEntryC f d s fl)
                    (List.range' addr
                      (if e - addr + 1 < f.csize then e - addr + 1
                        else f.csize)) ++
                    List.filterMap (dataEntryC f d s fl)
                      (List.range' (addr + f.csize)
                        (e + 1 - (addr + f.csize)))) = _
                rw [show (if e - addr + 1 < f.csize then e - addr + 1
                    else f.csize) = min f.csize (e + 1 - addr) from by
                  split <;> omega]
                rw [filterMap_cluster_merge2 (dataEntryC f d s fl)
                  addr e f.csize hge]
            · -- skipped: ALLOC not requested
              rw [if_pos ⟨by decide, hal⟩]
              show walkDataOuter d s e fl (fun _ _ _ => .cont)
                  { f with cache := c3 } (addr + f.csize) = _
              rw [hrecnext]
              rw [filterMap_cluster_merge1 (dataEntryC f d s fl)
                addr e f.csize hge (by
                  intro a ha
                  rw [List.mem_range'_1] at ha
                  unfold dataEntryC
                  by_cases has : a < s
                  · rw [if_pos has]
                  · rw [if_neg has]
                    rw [hclA a (by omega) (by omega) (by omega)]
                    rw [if_neg (show ¬(flagSat fl
                        (FLAG_CONT ||| FLAG_ALLOC) = true) from by
                      rw [flagSat_contAlloc]
                      simp [hal])])]
          · -- skipped: CONT not requested
            rw [if_pos ⟨by decide, hcnt⟩]
            show walkDataOuter d s e fl (fun _ _ _ => .cont)
                { f with cache := c3 } (addr + f.csize) = _
            rw [hrecnext]
            rw [filterMap_cluster_merge1 (dataEntryC f d s fl)
              addr e f.csize hge (by
                intro a ha
                rw [List.mem_range'_1] at ha
                unfold dataEntryC
                by_cases has : a < s
                · rw [if_pos has]
                · rw [if_neg has]
                  rw [hclA a (by omega) (by omega) (by omega)]
                  rw [if_neg (show ¬(flagSat fl
                      (FLAG_CONT ||| FLAG_ALLOC) = true) from by
                    rw [flagSat_contAlloc]
                    simp [hcnt])])]
        · -- unallocated cluster
          rw [if_neg hca]
          have hcaf : pureSectAlloc f d addr = false := by
            rcases Bool.eq_false_or_eq_true (pureSectAlloc f d addr) with
              h | h
            · exact absurd h hca
            · exact h
          have hclU : ∀ a, addr ≤ a → a < addr + f.csize → a ≤ e →
              classifyPure f d a = FLAG_CONT ||| FLAG_UNALLOC := by
            intro a ha1 ha2 ha3
            rw [hclassify a ha1 ha2 ha3, hcaf]
            rfl
          by_cases hcnt : fl.cont = true
          · rw [if_neg (show ¬((FLAG_UNALLOC ||| FLAG_CONT) &&&
                FLAG_CONT ≠ 0 ∧ ¬fl.cont = true) from by simp [hcnt])]
            rw [if_neg (show ¬((FLAG_UNALLOC ||| FLAG_CONT) &&&
                FLAG_ALLOC ≠ 0 ∧ ¬fl.alloc = true) from by
              intro hc
              exact hc.1 (by decide))]
            by_cases hun : fl.unalloc = true
            · -- delivered
              rw [if_neg (show ¬((FLAG_UNALLOC ||| FLAG_CONT) &&&
                  FLAG_UNALLOC ≠ 0 ∧ ¬fl.unalloc = true) from by
                simp [hun])]
              have hrdok : tsk_fs_read d (addr * f.block_size)
                  (f.block_size *
                    (if e - addr + 1 < f.csize then e - addr + 1
                      else f.csize)) =
                  some (fun j => d.read8 (addr * f.block_size + j)) := by
                unfold tsk_fs_read
                rw [if_pos ?_]
                have h6 : f.block_size *
                    (if e - addr + 1 < f.csize then e - addr + 1
                      else f.csize) ≤ f.block_size * (e + 1 - addr) :=
                  Nat.mul_le_mul_left _ hrs1
                have h7 : f.block_size * (e + 1 - addr) =
                    (e + 1 - addr) * f.block_size := Nat.mul_comm _ _
                have h8 := Nat.add_mul addr (e + 1 - addr) f.block_size
                rw [show addr + (e + 1 - addr) = e + 1 from by omega] at h8
                omega
              rw [hrdok]
              have hinner : walkDataInner { f with cache := c2 } s e
                  (FLAG_UNALLOC ||| FLAG_CONT) (fun _ _ _ => .cont)
                  (fun j => d.read8 (addr * f.block_size + j)) addr
                  (if e - addr + 1 < f.csize then e - addr + 1 else f.csize)
                  0 =
                  ((List.range' addr
                    (if e - addr + 1 < f.csize then e - addr + 1
                      else f.csize)).filterMap
                    (dataEntry f d s (FLAG_UNALLOC ||| FLAG_CONT)),
                   .next) := by
                have hh := walkDataInner_cont_spec { f with cache := c2 } d
                  s e (FLAG_UNALLOC ||| FLAG_CONT)
                  (fun j => d.read8 (addr * f.block_size + j)) addr
                  (fun j => rfl)
                  (if e - addr + 1 < f.csize then e - addr + 1 else f.csize)
                  0 (by omega)
                rw [Nat.add_zero] at hh
                exact hh
              split
              next heqr => exact Option.noConfusion heqr
              next buf heqr =>
               injection heqr with hbufeq
               subst hbufeq
               split
               next tr r heq3 =>
                rw [hinner] at heq3
                injection heq3 with hq3 hq4
                injection hq4
               next tr heq3 =>
                rw [hinner] at heq3
                injection heq3 with hq3 hq4
                show ((walkDataOuter d s e fl (fun _ _ _ => .cont)
                    { f with cache := c3 } (addr + f.csize)).1,
                  tr ++ (walkDataOuter d s e fl (fun _ _ _ => .cont)
                    { f with cache := c3 } (addr + f.csize)).2) = _
                rw [hrecnext, ← hq3]
                have hconv : ∀ a ∈ List.range' addr
                    (if e - addr + 1 < f.csize then e - addr + 1
                      else f.csize),
                    dataEntry f d s (FLAG_UNALLOC ||| FLAG_CONT) a =
                      dataEntryC f d s fl a := by
                  intro a ha
                  rw [List.mem_range'_1] at ha
                  have hae : a ≤ e := by omega
                  unfold dataEntry dataEntryC
                  by_cases has : a < s
                  · rw [if_pos has, if_pos has]
                  · rw [if_neg has, if_neg has]
                    have hrs2 : (if e - addr + 1 < f.csize then e - addr + 1
                        else f.csize) ≤ f.csize := by
                      split <;> omega
                    rw [hclU a (by omega) (by omega) hae]
                    rw [if_pos (show flagSat fl
                        (FLAG_CONT ||| FLAG_UNALLOC) = true from by
                      rw [flagSat_contUnalloc, hcnt, hun]
                      rfl)]
                    rw [show (FLAG_CONT ||| FLAG_UNALLOC) ||| FLAG_RAW =
                      (FLAG_UNALLOC ||| FLAG_CONT) ||| FLAG_RAW from
                      by decide]
                rw [filterMap_congr_mem _ _ _ hconv]
                show ((0 : Nat), List.filterMap (dataEntryC f d s fl)
                    (List.range' addr
                      (if e - addr + 1 < f.csize then e - addr + 1
                        else f.csize)) ++
                    List.filterMap (dataEntryC f d s fl)
                      (List.range' (addr + f.csize)
                        (e + 1 - (addr + f.csize)))) = _
                rw [show (if e - addr + 1 < f.csize then e - addr + 1
                    else f.csize) = min f.csize (e + 1 - addr) from by
                  split <;> omega]
                rw [filterMap_cluster_merge2 (dataEntryC f d s fl)
                  addr e f.csize hge]
            · -- skipped: UNALLOC not requested
              rw [if_pos ⟨by decide, hun⟩]
              show walkDataOuter d s e fl (fun _ _ _ => .cont)
                  { f with cache := c3 } (addr + f.csize) = _
              rw [hrecnext]
              rw [filterMap_cluster_merge1 (dataEntryC f d s fl)
                addr e f.csize hge (by
                  intro a ha
                  rw [List.mem_range'_1] at ha
                  unfold dataEntryC
                  by_cases has : a < s
                  · rw [if_pos has]
                  · rw [if_neg has]
                    rw [hclU a (by omega) (by omega) (by omega)]
                    rw [if_neg (show ¬(flagSat fl
                        (FLAG_CONT ||| FLAG_UNALLOC) = true) from by
                      rw [flagSat_contUnalloc]
                      simp [hun])])]
          · -- skipped: CONT not requested
            rw [if_pos ⟨by decide, hcnt⟩]
            show walkDataOuter d s e fl (fun _ _ _ => .cont)
                { f with cache := c3 } (addr + f.csize) = _
            rw [hrecnext]
            rw [filterMap_cluster_merge1 (dataEntryC f d s fl)
              addr e f.csize hge (by
                intro a ha
                rw [List.mem_range'_1] at ha
                unfold dataEntryC
                by_cases has : a < s
                · rw [if_pos has]
                · rw [if_neg has]
                  rw [hclU a (by omega) (by omega) (by omega)]
                  rw [if_neg (show ¬(flagSat fl
                      (FLAG_CONT ||| FLAG_UNALLOC) = true) from by
                    rw [flagSat_contUnalloc]
                    simp [hcnt])])]
    · unfold walkDataOuter
      rw [dif_neg (by
        intro hc
        have hc1 : addr ≤ e := hc.1
        omega)]
      rw [show e + 1 - addr = 0 from by omega]
      rfl

lemma filterMap_ext_down (dc : Nat → Option WEntry) (s e fcs : Nat)
    (hs : s ≤ fcs)
    (hnone : ∀ a, s ≤ a → a < fcs → a ≤ e → dc a = none) :
    List.filterMap dc (List.range' fcs (e + 1 - fcs)) =
      List.filterMap dc (List.range' s (e + 1 - s)) := by
  by_cases hfe : fcs ≤ e + 1
  · have hsplit := range'_split s (fcs - s) (e + 1 - s) (by omega)
    rw [show s + (fcs - s) = fcs from by omega,
      show e + 1 - s - (fcs - s) = e + 1 - fcs from by omega] at hsplit
    rw [hsplit, List.filterMap_append,
      filterMap_none_nil (List.range' s (fcs - s)) dc (by
        intro a ha
        rw [List.mem_range'_1] at ha
        exact hnone a (by omega) (by omega) (by omega)),
      List.nil_append]
  · rw [show e + 1 - fcs = 0 from by omega,
      show List.range' fcs 0 = ([] : List Nat) from rfl,
      show List.filterMap dc ([] : List Nat) = [] from rfl,
      filterMap_none_nil (List.range' s (e + 1 - s)) dc (by
        intro a ha
        rw [List.mem_range'_1] at ha
        exact hnone a (by omega) (by omega) (by omega))]

lemma clust_align_fcs (f : FATFS_INFO) :
    FATFS_CLUST_2_SECT f (FATFS_SECT_2_CLUST f f.firstclustsect) =
      f.firstclustsect := by
  unfold FATFS_CLUST_2_SECT FATFS_SECT_2_CLUST
  rw [Nat.sub_self, Nat.zero_div]
  norm_num

lemma clust_align_eq (f : FATFS_INFO) (s : Nat) :
    FATFS_CLUST_2_SECT f (FATFS_SECT_2_CLUST f s) =
      f.firstclustsect + ((s - f.firstclustsect) / f.csize) * f.csize := by
  unfold FATFS_CLUST_2_SECT FATFS_SECT_2_CLUST
  rw [show 2 + (s - f.firstclustsect) / f.csize - 2 =
    (s - f.firstclustsect) / f.csize from by
    rw [Nat.add_comm, Nat.add_sub_cancel]]

lemma clust_align_le (f : FATFS_INFO) (s : Nat)
    (hge : f.firstclustsect ≤ s) :
    FATFS_CLUST_2_SECT f (FATFS_SECT_2_CLUST f s) ≤ s := by
  rw [clust_align_eq]
  have h1 := Nat.div_mul_le_self (s - f.firstclustsect) f.csize
  have h2 : f.firstclustsect +
      (s - f.firstclustsect) / f.csize * f.csize ≤
      f.firstclustsect + (s - f.firstclustsect) :=
    Nat.add_le_add_left h1 _
  exact le_trans h2 (by omega)

lemma preEntry_none_of_noalloc (f : FATFS_INFO) (d : Disk)
    (fl : WalkFlags) (a : Nat) (hallocF : fl.alloc = false)
    (hafcs : a < f.firstclustsect) : preEntry f d fl a = none := by
  unfold preEntry
  by_cases hfd : a < f.firstdatasect
  · rw [show classifyPure f d a = FLAG_META ||| FLAG_ALLOC from by
      unfold classifyPure
      rw [if_pos hfd]]
    rw [if_neg (by rw [flagSat_metaAlloc]; simp [hallocF])]
  · rw [show classifyPure f d a = FLAG_CONT ||| FLAG_ALLOC from by
      unfold classifyPure
      rw [if_neg hfd, if_pos hafcs]]
    rw [if_neg (by rw [flagSat_contAlloc]; simp [hallocF])]

lemma fatfs_block_walk_cont_spec (f : FATFS_INFO) (d : Disk) (s e : Nat)
    (aflags : WalkFlags)
    (hwf : FatGeomWF f) (hcoh : CacheCoherent f d) (hrd : FatReadOk f d)
    (hfb : f.first_block ≤ s) (hse : s ≤ e) (hel : e ≤ f.last_block)
    (hszdata : (e + 1) * f.block_size ≤ d.size)
    (hszpre : ∀ a, a < f.firstclustsect → a ≤ e →
      a * f.block_size + f.block_size * 8 ≤ d.size) :
    fatfs_block_walk f d s e aflags (fun _ _ _ => .cont) =
      (0, (List.range' s
        ((if s < f.firstclustsect ∧ (walkDefault aflags).alloc = true ∧
            e = f.firstclustsect then e - 1 else e) + 1 - s)).filterMap
        (preEntry f d (walkDefault aflags))) := by
  have hcs : 0 < f.csize := hwf.2.2.2.2.1
  unfold fatfs_block_walk
  rw [if_neg (by omega), if_neg (by omega)]
  simp only []
  by_cases hA : s < f.firstclustsect ∧ (walkDefault aflags).alloc = true
  · rw [if_pos hA]
    have hpre := walkPreOuter_cont_spec f d e (walkDefault aflags) hA.2
      hszpre (min f.firstclustsect (e + 1)) s (by omega) (by omega)
    split
    next tr r heq =>
      rw [hpre] at heq
      injection heq with hq1 hq2
      injection hq2
    next tr addr1 heq =>
      rw [hpre] at heq
      injection heq with hq1 hq2
      injection hq2 with hq3
      subst hq3
      by_cases hEL : e ≤ min f.firstclustsect (e + 1)
      · rw [if_pos hEL, ← hq1]
        by_cases hEfcs : e = f.firstclustsect
        · rw [if_pos ⟨hA.1, hA.2, hEfcs⟩]
          rw [show min f.firstclustsect (e + 1) - s = (e - 1) + 1 - s from
            by omega]
        · rw [if_neg (by intro hc; exact hEfcs hc.2.2)]
          rw [show min f.firstclustsect (e + 1) - s = e + 1 - s from
            by omega]
      · rw [if_neg hEL]
        have hfcs_lt : f.firstclustsect < e := by omega
        have hL : min f.firstclustsect (e + 1) = f.firstclustsect := by
          omega
        rw [hL] at hq1
        rw [hL, clust_align_fcs f]
        have hdata : walkDataOuter d s e (walkDefault aflags)
            (fun _ _ _ => .cont) f f.firstclustsect =
            (0, (List.range' f.firstclustsect
              (e + 1 - f.firstclustsect)).filterMap
              (dataEntryC f d s (walkDefault aflags))) :=
          walkDataOuter_cont_spec f d s e (walkDefault aflags) hwf hrd
            hszdata hel (e + 1) f.firstclustsect f.cache hcoh
            ⟨0, by omega⟩ (by omega)
        show ((walkDataOuter d s e (walkDefault aflags)
            (fun _ _ _ => .cont) f f.firstclustsect).1,
          tr ++ (walkDataOuter d s e (walkDefault aflags)
            (fun _ _ _ => .cont) f f.firstclustsect).2) = _
        rw [hdata, ← hq1]
        rw [if_neg (by intro hc; exact absurd hc.2.2 (by omega))]
        rw [filterMap_congr_mem
          (List.range' f.firstclustsect (e + 1 - f.firstclustsect))
          (dataEntryC f d s (walkDefault aflags))
          (preEntry f d (walkDefault aflags)) (by
            intro a ha
            rw [List.mem_range'_1] at ha
            unfold dataEntryC preEntry
            rw [if_neg (show ¬(a < s) from by omega)])]
        have hsplit := range'_split s (f.firstclustsect - s) (e + 1 - s)
          (by omega)
        rw [show s + (f.firstclustsect - s) = f.firstclustsect from
          by omega,
          show e + 1 - s - (f.firstclustsect - s) =
            e + 1 - f.firstclustsect from by omega] at hsplit
        rw [hsplit, List.filterMap_append]
  · rw [if_neg hA]
    by_cases hsf : s < f.firstclustsect
    · have hallocF : (walkDefault aflags).alloc = false := by
        rcases Bool.eq_false_or_eq_true ((walkDefault aflags).alloc) with
          h | h
        · exact absurd ⟨hsf, h⟩ hA
        · exact h
      rw [if_pos hsf, clust_align_fcs f]
      have hdata : walkDataOuter d s e (walkDefault aflags)
          (fun _ _ _ => .cont) f f.firstclustsect =
          (0, (List.range' f.firstclustsect
            (e + 1 - f.firstclustsect)).filterMap
            (dataEntryC f d s (walkDefault aflags))) :=
        walkDataOuter_cont_spec f d s e (walkDefault aflags) hwf hrd
          hszdata hel (e + 1) f.firstclustsect f.cache hcoh
          ⟨0, by omega⟩ (by omega)
      rw [hdata]
      rw [if_neg (by simp [hallocF])]
      rw [filterMap_congr_mem
        (List.range' f.firstclustsect (e + 1 - f.firstclustsect))
        (dataEntryC f d s (walkDefault aflags))
        (preEntry f d (walkDefault aflags)) (by
          intro a ha
          rw [List.mem_range'_1] at ha
          unfold dataEntryC preEntry
          rw [if_neg (show ¬(a < s) from by omega)])]
      rw [filterMap_ext_down (preEntry f d (walkDefault aflags)) s e
        f.firstclustsect (by omega) (by
          intro a ha1 ha2 _
          exact preEntry_none_of_noalloc f d (walkDefault aflags) a
            hallocF ha2)]
    · rw [if_neg hsf]
      have hale := clust_align_le f s (by omega)
      have hdata : walkDataOuter d s e (walkDefault aflags)
          (fun _ _ _ => .cont) f
          (FATFS_CLUST_2_SECT f (FATFS_SECT_2_CLUST f s)) =
          (0, (List.range' (FATFS_CLUST_2_SECT f (FATFS_SECT_2_CLUST f s))
            (e + 1 - FATFS_CLUST_2_SECT f (FATFS_SECT_2_CLUST f s))).filterMap
            (dataEntryC f d s (walkDefault aflags))) :=
        walkDataOuter_cont_spec f d s e (walkDefault aflags) hwf hrd
          hszdata hel (e + 1) _ f.cache hcoh
          ⟨(s - f.firstclustsect) / f.csize, clust_align_eq f s⟩ (by omega)
      rw [hdata]
      rw [if_neg (by intro hc; exact hsf hc.1)]
      rw [show List.filterMap (dataEntryC f d s (walkDefault aflags))
          (List.range' (FATFS_CLUST_2_SECT f (FATFS_SECT_2_CLUST f s))
            (e + 1 - FATFS_CLUST_2_SECT f (FATFS_SECT_2_CLUST f s))) =
          List.filterMap (dataEntryC f d s (walkDefault aflags))
            (List.range' s (e + 1 - s)) from
        (filterMap_ext_down (dataEntryC f d s (walkDefault aflags))
          (FATFS_CLUST_2_SECT f (FATFS_SECT_2_CLUST f s)) e s hale (by
            intro a _ ha2 _
            unfold dataEntryC
            rw [if_pos ha2])).symm]
      rw [filterMap_congr_mem (List.range' s (e + 1 - s))
        (dataEntryC f d s (walkDefault aflags))
        (preEntry f d (walkDefault aflags)) (by
          intro a ha
          rw [List.mem_range'_1] at ha
          unfold dataEntryC preEntry
          rw [if_neg (show ¬(a < s) from by omega)])]

lemma filterMap_preEntry_fst (f : FATFS_INFO) (d : Disk) (fl : WalkFlags)
    (l : List Nat) :
    ((l.filterMap (preEntry f d fl)).map (fun x => x.1)) =
      l.filter (fun a => flagSat fl (classifyPure f d a)) := by
  induction l with
  | nil => rfl
  | cons x xs ih =>
    rw [List.filterMap_cons, List.filter_cons]
    by_cases hx : flagSat fl (classifyPure f d x) = true
    · rw [show preEntry f d fl x = some (x, classifyPure f d x ||| FLAG_RAW,
        sectorData f d x) from by unfold preEntry; rw [if_pos hx], hx]
      rw [if_pos rfl, List.map_cons, ih]
    · have hx2 : flagSat fl (classifyPure f d x) = false := by
        rcases Bool.eq_false_or_eq_true (flagSat fl (classifyPure f d x))
          with h | h
        · exact absurd h hx
        · exact h
      rw [show preEntry f d fl x = none from by
        unfold preEntry; rw [if_neg hx], hx2]
      rw [if_neg Bool.false_ne_true]
      exact ih

/-- Claim C4 (amended): for a valid range and an always-CONTINUE callback,
`fatfs_block_walk` succeeds and the delivered addresses are strictly
increasing and are exactly the addresses in `[s, e']` whose
`fatfs_block_getflags` classification passes the (defaulted) walk flags —
where `e' = e - 1` (not `e`) when the pre-data phase runs (`s <
firstclustsect` and ALLOC requested) and `e = firstclustsect`: in that case
the early `if (addr >= a_end_blk) return 0` at fatfs.c:540 drops the final
block even when its classification passes the filter. -/
theorem fat_block_walk_partition (f : FATFS_INFO) (d : Disk) (s e : Nat)
    (aflags : WalkFlags)
    (hwf : FatGeomWF f) (hcoh : CacheCoherent f d) (hrd : FatReadOk f d)
    (hfb : f.first_block ≤ s) (hse : s ≤ e) (hel : e ≤ f.last_block)
    (hszdata : (e + 1) * f.block_size ≤ d.size)
    (hszpre : ∀ a, a < f.firstclustsect → a ≤ e →
      a * f.block_size + f.block_size * 8 ≤ d.size) :
    ((fatfs_block_walk f d s e aflags (fun _ _ _ => .cont)).2.map
        (fun x => x.1) =
      (List.range' s
        ((if s < f.firstclustsect ∧ (walkDefault aflags).alloc = true ∧
            e = f.firstclustsect then e - 1 else e) + 1 - s)).filter
        (fun a => flagSat (walkDefault aflags)
          (fatfs_block_getflags f d a))) ∧
    List.Chain' (· < ·)
      ((fatfs_block_walk f d s e aflags (fun _ _ _ => .cont)).2.map
        (fun x => x.1)) ∧
    (fatfs_block_walk f d s e aflags (fun _ _ _ => .cont)).1 = 0 := by
  have hspec := fatfs_block_walk_cont_spec f d s e aflags hwf hcoh hrd
    hfb hse hel hszdata hszpre
  rw [hspec]
  have hfst := filterMap_preEntry_fst f d (walkDefault aflags)
    (List.range' s
      ((if s < f.firstclustsect ∧ (walkDefault aflags).alloc = true ∧
          e = f.firstclustsect then e - 1 else e) + 1 - s))
  refine ⟨?_, ?_, rfl⟩
  · show ((List.range' s _).filterMap
        (preEntry f d (walkDefault aflags))).map (fun x => x.1) = _
    rw [hfst]
    apply List.filter_congr
    intro a ha
    rw [List.mem_range'_1] at ha
    have hae : a ≤ e := by
      by_cases hdrop : s < f.firstclustsect ∧
          (walkDefault aflags).alloc = true ∧ e = f.firstclustsect
      · rw [if_pos hdrop] at ha
        omega
      · rw [if_neg hdrop] at ha
        omega
    rw [fatfs_block_getflags_pure f d a hwf hcoh hrd (by omega)]
  · show List.Chain' (· < ·) (((List.range' s _).filterMap
        (preEntry f d (walkDefault aflags))).map (fun x => x.1))
    rw [hfst]
    exact ((List.pairwise_lt_range' s _).filter _).chain'

/-- A small FAT16 volume for the block-walk claims: sector size 512,
1-sector clusters, FAT at sector 1, first cluster sector 2 (= root
directory start in sectors 1..1), two clusters. -/
def wFatWalk : FATFS_INFO :=
  { ftype := .fat16, endian := .little, ssize := 512, ssize_sh := 9,
    csize := 1, numfat := 1, firstfatsect := 1, firstdatasect := 1,
    firstclustsect := 2, clustcnt := 2, lastclust := 3, first_block := 0,
    last_block := 20, block_size := 512, cacheN := 4, cacheS := 2,
    cache := ⟨fun _ => 0, fun _ => 0, fun _ _ => 0⟩ }

def wDiskW : Disk := ⟨8192, fun _ => 0⟩

/-- Witness for the amended claim: on the concrete volume, every hypothesis
holds and the walk over `[0, 2]` with default flags returns 0. -/
theorem fat_block_walk_partition_witness :
    (fatfs_block_walk wFatWalk wDiskW 0 2 ⟨false, false, false, false⟩
      (fun _ _ _ => .cont)).1 = 0 :=
  (fat_block_walk_partition wFatWalk wDiskW 0 2
    ⟨false, false, false, false⟩ (by unfold FatGeomWF; decide)
    (coherent_of_unused wFatWalk wDiskW (fun i => rfl))
    (by unfold FatReadOk; decide)
    (by decide) (by decide) (by decide) (by decide)
    (by decide)).2.2

/-- Counterexample to claim C4 as stated: on the concrete volume with
`s = 0 < firstclustsect = 2 = e` and default flags, the walk delivers only
blocks 0 and 1, while the claimed set {a ∈ [0,2] : classification passes}
is {0, 1, 2} — block 2 (an unallocated data cluster, deliverable under the
defaulted flags) is dropped by the early return at fatfs.c:540. -/
theorem fat_block_walk_partition_cex :
    ¬((fatfs_block_walk wFatWalk wDiskW 0 2 ⟨false, false, false, false⟩
        (fun _ _ _ => .cont)).2.map (fun x => x.1) =
      (List.range' 0 3).filter
        (fun a => flagSat (walkDefault ⟨false, false, false, false⟩)
          (fatfs_block_getflags wFatWalk wDiskW a))) := by
  have hspec := fatfs_block_walk_cont_spec wFatWalk wDiskW 0 2
    ⟨false, false, false, false⟩ (by unfold FatGeomWF; decide)
    (coherent_of_unused wFatWalk wDiskW (fun i => rfl))
    (by unfold FatReadOk; decide)
    (by decide) (by decide) (by decide) (by decide) (by decide)
  rw [hspec]
  decide
